import Mathlib

/-!
Verification of the trace-reconstruction core of the `claude-code-explained`
repository: the event-stream decoder (`parseSSEResponse`), the field
sanitizer (`removeUnwantedFields`), the trace loader (`parseLLMFile`,
`parseExample`) and the continuation detector
(`generateBlockHashSequence`, `countMatchingPrefixBlocks`, the
`isContinued` computation of `renderBlocks`).

The JavaScript source is embedded shallowly:

* JSON documents become the mutual inductive `Json` / `JsonList` /
  `JsonObj` (mutual rather than nested so that all recursions are
  structural and kernel-reducible).
* JavaScript objects keep key-insertion order; property update keeps the
  key's position, property creation appends.
* `undefined` is modelled as `Option.none` at read sites; where the source
  stores an `undefined` read back into a field, the model stores
  `Json.null` (the difference is not observable by any verified property).
* JavaScript numbers are modelled as `Int`; the 32-bit wrap-around of the
  `simpleHash` bit operations is explicit.
* The host primitive `JSON.parse` is not repository code; it is passed in
  as an oracle `jsonParse : String → Option Json` (`none` models a thrown
  `SyntaxError`).
* `charCodeAt` is modelled by `Char.toNat`, which agrees with UTF-16 code
  units on the Basic Multilingual Plane; no verified property involves
  code points beyond it.
-/

set_option maxRecDepth 100000

mutual

inductive Json where
  | null : Json
  | bool (b : Bool) : Json
  | num (n : Int) : Json
  | str (s : String) : Json
  | arr (elems : JsonList) : Json
  | obj (fields : JsonObj) : Json

inductive JsonList where
  | nil : JsonList
  | cons (head : Json) (tail : JsonList) : JsonList

inductive JsonObj where
  | nil : JsonObj
  | cons (key : String) (value : Json) (tail : JsonObj) : JsonObj

end

/-- Convert a `JsonList` to an ordinary `List Json`. -/
def JsonList.toList : JsonList → List Json
  | .nil => []
  | .cons h t => h :: t.toList

/-- Build a `JsonList` from an ordinary list. -/
def JsonList.ofList : List Json → JsonList
  | [] => .nil
  | h :: t => .cons h (JsonList.ofList t)

/-- Convert a `JsonObj` to a list of key/value pairs. -/
def JsonObj.toList : JsonObj → List (String × Json)
  | .nil => []
  | .cons k v t => (k, v) :: t.toList

/-- Build a `JsonObj` from a list of key/value pairs. -/
def JsonObj.ofList : List (String × Json) → JsonObj
  | [] => .nil
  | (k, v) :: t => .cons k v (JsonObj.ofList t)

/-- Array literal helper. -/
def jarr (l : List Json) : Json := Json.arr (JsonList.ofList l)

/-- Object literal helper. -/
def jobj (l : List (String × Json)) : Json := Json.obj (JsonObj.ofList l)

mutual

/-- Boolean equality on `Json` (used to model JavaScript `Set.has` /
`===` on primitive values). -/
def Json.beq : Json → Json → Bool
  | .null, .null => true
  | .bool a, .bool b => a == b
  | .num a, .num b => a == b
  | .str a, .str b => a == b
  | .arr a, .arr b => JsonList.beq a b
  | .obj a, .obj b => JsonObj.beq a b
  | _, _ => false

/-- Boolean equality on `JsonList`. -/
def JsonList.beq : JsonList → JsonList → Bool
  | .nil, .nil => true
  | .cons a as, .cons b bs => Json.beq a b && JsonList.beq as bs
  | _, _ => false

/-- Boolean equality on `JsonObj`. -/
def JsonObj.beq : JsonObj → JsonObj → Bool
  | .nil, .nil => true
  | .cons k v t, .cons k' v' t' => k == k' && Json.beq v v' && JsonObj.beq t t'
  | _, _ => false

end

mutual

theorem jsonBeq_iff : ∀ a b : Json, Json.beq a b = true ↔ a = b
  | .null, b => by cases b <;> simp [Json.beq]
  | .bool x, b => by cases b <;> simp [Json.beq]
  | .num x, b => by cases b <;> simp [Json.beq]
  | .str x, b => by cases b <;> simp [Json.beq]
  | .arr x, b => by
      cases b <;> simp [Json.beq]
      exact jsonListBeq_iff x _
  | .obj x, b => by
      cases b <;> simp [Json.beq]
      exact jsonObjBeq_iff x _

theorem jsonListBeq_iff : ∀ a b : JsonList, JsonList.beq a b = true ↔ a = b
  | .nil, b => by cases b <;> simp [JsonList.beq]
  | .cons x xs, b => by
      cases b <;> simp [JsonList.beq]
      exact and_congr (jsonBeq_iff x _) (jsonListBeq_iff xs _)

theorem jsonObjBeq_iff : ∀ a b : JsonObj, JsonObj.beq a b = true ↔ a = b
  | .nil, b => by cases b <;> simp [JsonObj.beq]
  | .cons k v t, b => by
      cases b with
      | nil => simp [JsonObj.beq]
      | cons k' v' t' =>
        simp only [JsonObj.beq, Bool.and_eq_true, beq_iff_eq, JsonObj.cons.injEq]
        rw [jsonBeq_iff, jsonObjBeq_iff]
        tauto

end

instance : DecidableEq Json := fun a b => decidable_of_iff _ (jsonBeq_iff a b)

instance : DecidableEq JsonList := fun a b => decidable_of_iff _ (jsonListBeq_iff a b)

instance : DecidableEq JsonObj := fun a b => decidable_of_iff _ (jsonObjBeq_iff a b)

/-- Look a key up in a `JsonObj` (first occurrence; the source objects come
from `JSON.parse` or from the insertion-order-preserving update below and
never hold duplicate keys). `none` models `undefined`. -/
def JsonObj.get? : JsonObj → String → Option Json
  | .nil, _ => none
  | .cons k v t, key => if k = key then some v else JsonObj.get? t key

/-- JavaScript property update: an existing key keeps its position, a new
key is appended at the end. -/
def JsonObj.set : JsonObj → String → Json → JsonObj
  | .nil, key, v => .cons key v .nil
  | .cons k w t, key, v =>
    if k = key then .cons k v t else .cons k w (JsonObj.set t key v)

/-- Read a property of a `Json` value. Reads on non-objects yield
`undefined` (`none`); this also covers `null`, whose property reads throw
in JavaScript — every verified property keeps such reads unreachable or
handles the throw explicitly at its call site. -/
def Json.get? : Json → String → Option Json
  | .obj o, key => o.get? key
  | _, _ => none

/-- Write a property of a `Json` value. Writes on non-objects are silent
no-ops, as in non-strict JavaScript. -/
def Json.setField : Json → String → Json → Json
  | .obj o, key, v => .obj (o.set key v)
  | j, _, _ => j

/-- JavaScript truthiness of a value. -/
def jsTruthy : Json → Bool
  | .null => false
  | .bool b => b
  | .num n => !(n == 0)
  | .str s => !(s == "")
  | .arr _ => true
  | .obj _ => true

/-- Truthiness of a possibly-`undefined` value. -/
def jsTruthyOpt : Option Json → Bool
  | none => false
  | some j => jsTruthy j

/-- The JavaScript test `typeof x === 'object'`: true for objects, arrays
and `null`, false for primitives and `undefined`. -/
def isObjectTy : Option Json → Bool
  | some (.obj _) => true
  | some (.arr _) => true
  | some .null => true
  | _ => false

mutual

/-- Serialization after `JSON.stringify` (no spacing): keys in insertion
order, strings quoted with the common escapes. Control characters other
than `\n`, `\t`, `\r` never occur in this development. -/
def jsonStringify : Json → String
  | .null => "null"
  | .bool b => if b then "true" else "false"
  | .num n => toString n
  | .str s => "\"" ++ escapeJsonString s.data ++ "\""
  | .arr es => "[" ++ jsonStringifyList es ++ "]"
  | .obj fs => "\x7b" ++ jsonStringifyObj fs ++ "\x7d"

/-- Serialize the elements of a JSON array, comma separated. -/
def jsonStringifyList : JsonList → String
  | .nil => ""
  | .cons h .nil => jsonStringify h
  | .cons h t => jsonStringify h ++ "," ++ jsonStringifyList t

/-- Serialize the fields of a JSON object, comma separated. -/
def jsonStringifyObj : JsonObj → String
  | .nil => ""
  | .cons k v .nil => "\"" ++ escapeJsonString k.data ++ "\":" ++ jsonStringify v
  | .cons k v t =>
    "\"" ++ escapeJsonString k.data ++ "\":" ++ jsonStringify v ++ "," ++ jsonStringifyObj t

/-- Escape the body of a JSON string literal. -/
def escapeJsonString : List Char → String
  | [] => ""
  | c :: rest =>
    (if c = '"' then "\\\""
     else if c = '\\' then "\\\\"
     else if c = '\n' then "\\n"
     else if c = '\t' then "\\t"
     else if c = '\r' then "\\r"
     else String.mk [c]) ++ escapeJsonString rest

end

mutual

/-- JavaScript `String(x)` coercion, used by `+` when one operand is a
string. Arrays join their elements with commas (`null` becoming empty),
plain objects print as `[object Object]`. -/
def jsToString : Json → String
  | .null => "null"
  | .bool b => if b then "true" else "false"
  | .num n => toString n
  | .str s => s
  | .arr es => jsToStringList es
  | .obj _ => "[object Object]"

/-- Elements of an array under JavaScript string coercion. -/
def jsToStringList : JsonList → String
  | .nil => ""
  | .cons h .nil => jsToStringElem h
  | .cons h t => jsToStringElem h ++ "," ++ jsToStringList t

/-- One array element under JavaScript string coercion: as `jsToString`,
except that `null` becomes the empty string. -/
def jsToStringElem : Json → String
  | .null => ""
  | .bool b => if b then "true" else "false"
  | .num n => toString n
  | .str s => s
  | .arr es => jsToStringList es
  | .obj _ => "[object Object]"

end

/-- String coercion of a possibly-`undefined` operand of `+`. -/
def jsToStringOpt : Option Json → String
  | none => "undefined"
  | some j => jsToString j

/-- Elements of a JSON array as a Lean list; non-arrays give `[]`. The
source only reaches the corresponding `forEach`/`length` uses on arrays. -/
def getArr : Json → List Json
  | .arr es => es.toList
  | _ => []

/-- Whether a value is a JSON array (`Array.isArray`). -/
def isArr : Json → Bool
  | .arr _ => true
  | _ => false

/-- ASCII lower-casing of one character, the fragment of
`String.prototype.toLowerCase` exercised by the trace filenames. -/
def lowerChar (c : Char) : Char :=
  if 65 ≤ c.toNat ∧ c.toNat ≤ 90 then Char.ofNat (c.toNat + 32) else c

/-- ASCII `toLowerCase`. -/
def strToLower (s : String) : String := String.mk (s.data.map lowerChar)

/-- Whether `p` is a prefix of `l` (decidable, kernel-reducible). -/
def listPrefixOf [DecidableEq α] : List α → List α → Bool
  | [], _ => true
  | _ :: _, [] => false
  | a :: as, b :: bs => a == b && listPrefixOf as bs

/-- Whether `p` occurs as a contiguous run inside `l`. -/
def listInfixOf [DecidableEq α] (p : List α) : List α → Bool
  | [] => listPrefixOf p []
  | l@(_ :: rest) => listPrefixOf p l || listInfixOf p rest

/-- JavaScript `s.includes(pat)`. -/
def strContains (s pat : String) : Bool := listInfixOf pat.data s.data

/-- JavaScript `s.endsWith(suffix)`. -/
def strEndsWith (s suffix : String) : Bool :=
  listPrefixOf suffix.data.reverse s.data.reverse

/-- Whitespace for JavaScript `String.prototype.trim` (the ASCII part;
exotic Unicode spaces never occur in the traces). -/
def isJsSpace (c : Char) : Bool :=
  c = ' ' ∨ c = '\t' ∨ c = '\n' ∨ c = '\r' ∨ c.toNat = 11 ∨ c.toNat = 12

/-- Whether `s.trim() === ''`, i.e. `s` is all whitespace. -/
def jsIsBlank (s : String) : Bool := s.data.all isJsSpace

/-- JavaScript `s.trim()`. -/
def jsTrim (s : String) : String :=
  String.mk (((s.data.dropWhile isJsSpace).reverse.dropWhile isJsSpace).reverse)

/-- Replace the first occurrence of `pat` (non-empty) inside a character
list, as `String.prototype.replace` with a plain-string pattern does. -/
def listReplaceFirst [DecidableEq α] (pat repl : List α) : List α → List α
  | [] => []
  | l@(a :: rest) =>
    if listPrefixOf pat l then repl ++ l.drop pat.length
    else a :: listReplaceFirst pat repl rest

/-- JavaScript `s.replace(pat, repl)` for a plain-string pattern. -/
def strReplaceFirst (s pat repl : String) : String :=
  String.mk (listReplaceFirst pat.data repl.data s.data)

/-- Split a string at newline characters, as `content.split('\n')`. -/
def splitLinesAux (cur : List Char) : List Char → List String
  | [] => [String.mk cur.reverse]
  | c :: rest =>
    if c = '\n' then String.mk cur.reverse :: splitLinesAux [] rest
    else splitLinesAux (c :: cur) rest

/-- JavaScript `content.split('\n')`. -/
def splitLines (s : String) : List String := splitLinesAux [] s.data

/-- Coerce an `Int` onto the signed 32-bit range, as JavaScript `| 0` /
`& -1` style bit operations do. -/
def toInt32 (x : Int) : Int := ((x + 2 ^ 31) % 2 ^ 32) - 2 ^ 31

/-- One step of the rolling hash: `hash = ((hash << 5) - hash) + char`
followed by `hash = hash & hash` (the 32-bit coercion). -/
def simpleHashStep (h : Int) (c : Char) : Int :=
  toInt32 (toInt32 (h * 32) - h + Int.ofNat c.toNat)

/-- Digit characters of `Number.prototype.toString(36)`. -/
def base36Digit (n : Nat) : Char :=
  if n < 10 then Char.ofNat (48 + n) else Char.ofNat (87 + n)

/-- Base-36 digits accumulator; the fuel argument only bounds the
recursion and is always sufficient. -/
def natToBase36Aux : Nat → Nat → List Char → List Char
  | 0, _, acc => acc
  | _ + 1, 0, acc => acc
  | fuel + 1, n, acc => natToBase36Aux fuel (n / 36) (base36Digit (n % 36) :: acc)

/-- `Number.prototype.toString(36)` for natural numbers. -/
def natToBase36Chars (n : Nat) : List Char :=
  if n = 0 then ['0'] else natToBase36Aux (n + 1) n []

/-- The `simpleHash` function of the viewer: the 32-bit rolling hash of
the UTF-16 units, made non-negative, printed in base 36 and truncated to
six characters. -/
def simpleHash (s : String) : String :=
  String.mk ((natToBase36Chars (s.data.foldl simpleHashStep 0).natAbs).take 6)

/-- The `removeUnwantedFields` deny-list. -/
def unwantedFields : List String := ["signature", "cache_control"]

mutual

/-- The field sanitizer `removeUnwantedFields`: recursively drop every
`signature` / `cache_control` key from objects at any depth, preserving
all other structure and key order. -/
def removeUnwantedFields : Json → Json
  | .arr elems => .arr (removeUnwantedFieldsList elems)
  | .obj fields => .obj (removeUnwantedFieldsObj fields)
  | j => j

/-- Sanitize every element of an array (`obj.map(...)` in the source). -/
def removeUnwantedFieldsList : JsonList → JsonList
  | .nil => .nil
  | .cons h t => .cons (removeUnwantedFields h) (removeUnwantedFieldsList t)

/-- Sanitize an object: skip denied keys, recurse into kept values
(the `for (const key in obj)` loop of the source). -/
def removeUnwantedFieldsObj : JsonObj → JsonObj
  | .nil => .nil
  | .cons k v t =>
    if unwantedFields.contains k then removeUnwantedFieldsObj t
    else .cons k (removeUnwantedFields v) (removeUnwantedFieldsObj t)

end

mutual

/-- No denied key occurs anywhere in the value. -/
def noUnwantedKeys : Json → Bool
  | .arr elems => noUnwantedKeysList elems
  | .obj fields => noUnwantedKeysObj fields
  | _ => true

/-- No denied key occurs anywhere in the array. -/
def noUnwantedKeysList : JsonList → Bool
  | .nil => true
  | .cons h t => noUnwantedKeys h && noUnwantedKeysList t

/-- No denied key occurs anywhere in the object, keys included. -/
def noUnwantedKeysObj : JsonObj → Bool
  | .nil => true
  | .cons k v t =>
    !(unwantedFields.contains k) && noUnwantedKeys v && noUnwantedKeysObj t

end

/-- One parsed server-sent event: a name and an optional data payload
(`none` when no `data:` line was seen). -/
structure SSEEvent where
  type : String
  data : Option Json
deriving DecidableEq

/-- The mutable state of the event-merge loop of `parseSSEResponse`: the
message accumulator and the index-keyed in-progress content blocks
(association list in insertion order, one entry per index). -/
structure DecodeState where
  message : Json
  contentBlocks : List (Int × Json)
deriving DecidableEq

/-- Lookup in the in-progress block map. -/
def blocksGet? (blocks : List (Int × Json)) (i : Int) : Option Json :=
  match blocks with
  | [] => none
  | (j, b) :: rest => if j = i then some b else blocksGet? rest i

/-- Update-or-append in the in-progress block map (JavaScript object
assignment semantics on an integer key). -/
def blocksSet (blocks : List (Int × Json)) (i : Int) (v : Json) : List (Int × Json) :=
  match blocks with
  | [] => [(i, v)]
  | (j, b) :: rest =>
    if j = i then (j, v) :: rest else (j, b) :: blocksSet rest i v

/-- The spread copy `{ ...x }`: objects are copied field for field;
spreading a primitive yields an empty object (string spreads, which would
enumerate characters, never occur in the traces). -/
def jsSpread : Json → Json
  | .obj o => .obj o
  | _ => jobj []

/-- Extract the numeric `index` of an event payload. A non-numeric index
(which JavaScript would silently turn into a string object key) does not
occur in any verified property; such events are ignored here. -/
def getIndex? (d : Json) : Option Int :=
  match d.get? "index" with
  | some (.num n) => some n
  | _ => none

/-- The `delta.type` string of a content-block delta. A non-string
`delta.type` would throw in JavaScript when `.replace` is called on it;
it never occurs in any verified property. -/
def deltaKind (delta : Json) : String :=
  match delta.get? "type" with
  | some (.str s) => s
  | _ => ""

/-- The `x || ''` guard applied before string concatenation. -/
def jsOrEmptyStr (v : Option Json) : Json :=
  match v with
  | some j => if jsTruthy j then j else Json.str ""
  | none => Json.str ""

/-- The accumulation `(field || '') + extra` of the delta handlers. -/
def jsConcatAppend (cur : Option Json) (extra : Option Json) : Json :=
  Json.str (jsToString (jsOrEmptyStr cur) ++ jsToStringOpt extra)

/-- One iteration of the event-merge loop of `parseSSEResponse`
(source lines 299–367). -/
def handleSSEEvent (jsonParse : String → Option Json) (st : DecodeState)
    (ev : SSEEvent) : DecodeState :=
  match ev.data with
  | none => st
  | some d =>
    if !jsTruthy d then st
    else if ev.type = "message_start" then
      let msg := (d.get? "message").getD Json.null
      let m := st.message
      let m := m.setField "model" ((msg.get? "model").getD Json.null)
      let m := m.setField "id" ((msg.get? "id").getD Json.null)
      let m := m.setField "usage" ((msg.get? "usage").getD Json.null)
      { st with message := m }
    else if ev.type = "content_block_start" then
      match getIndex? d with
      | some idx =>
        let cb := (d.get? "content_block").getD Json.null
        { st with contentBlocks := blocksSet st.contentBlocks idx (jsSpread cb) }
      | none => st
    else if ev.type = "content_block_delta" then
      match getIndex? d with
      | some idx =>
        let delta := (d.get? "delta").getD Json.null
        let blocks :=
          match blocksGet? st.contentBlocks idx with
          | none =>
            blocksSet st.contentBlocks idx
              (jobj [("type", Json.str (strReplaceFirst (deltaKind delta) "_delta" ""))])
          | some _ => st.contentBlocks
        let b := (blocksGet? blocks idx).getD Json.null
        let b :=
          if deltaKind delta = "text_delta" then
            b.setField "text" (jsConcatAppend (b.get? "text") (delta.get? "text"))
          else if deltaKind delta = "thinking_delta" then
            b.setField "thinking" (jsConcatAppend (b.get? "thinking") (delta.get? "thinking"))
          else if deltaKind delta = "input_json_delta" then
            let b := if isObjectTy (b.get? "input") then b.setField "input" (Json.str "") else b
            b.setField "input" (jsConcatAppend (b.get? "input") (delta.get? "partial_json"))
          else b
        { st with contentBlocks := blocksSet blocks idx b }
      | none => st
    else if ev.type = "content_block_stop" then
      match getIndex? d with
      | some idx =>
        match blocksGet? st.contentBlocks idx with
        | some b =>
          match b.get? "input" with
          | some (Json.str s) =>
            if !jsIsBlank s then
              match jsonParse s with
              | some v =>
                { st with contentBlocks := blocksSet st.contentBlocks idx (b.setField "input" v) }
              | none => st
            else
              { st with contentBlocks := blocksSet st.contentBlocks idx (b.setField "input" (jobj [])) }
          | _ => st
        | none => st
      | none => st
    else if ev.type = "message_delta" then
      let mdelta := (d.get? "delta").getD Json.null
      let m := st.message
      let m :=
        if jsTruthy mdelta then
          let m :=
            if jsTruthyOpt (mdelta.get? "stop_reason") then
              m.setField "stop_reason" ((mdelta.get? "stop_reason").getD Json.null)
            else m
          if jsTruthyOpt (mdelta.get? "stop_sequence") then
            m.setField "stop_sequence" ((mdelta.get? "stop_sequence").getD Json.null)
          else m
        else m
      let usage := (d.get? "usage").getD Json.null
      let m :=
        if jsTruthy usage then
          m.setField "usage"
            (((m.get? "usage").getD Json.null).setField "output_tokens"
              ((usage.get? "output_tokens").getD Json.null))
        else m
      { st with message := m }
    else st

/-- The message accumulator before any event is processed. -/
def initSSEMessage : Json :=
  jobj [("model", .str ""), ("id", .str ""), ("type", .str "message"),
        ("role", .str "assistant"), ("content", jarr []),
        ("stop_reason", .null), ("stop_sequence", .null), ("usage", jobj [])]

/-- The final step of `parseSSEResponse`: sort the block indices
ascending and attach the blocks as `content`. The numeric-comparator
`sort` of the source is modelled by a stable ascending sort. -/
def sseFinalize (st : DecodeState) : Json :=
  let idxs := (st.contentBlocks.map Prod.fst).insertionSort (· ≤ ·)
  st.message.setField "content" (jarr (idxs.filterMap (blocksGet? st.contentBlocks)))

/-- The event-merge phase of `parseSSEResponse`: fold the handlers over
the event sequence starting from the fresh accumulator, then finalize. -/
def mergeSSEEvents (jsonParse : String → Option Json) (events : List SSEEvent) : Json :=
  sseFinalize (events.foldl (handleSSEEvent jsonParse) ⟨initSSEMessage, []⟩)

/-- The in-progress block map after the whole event sequence. -/
def decodeBlocks (jsonParse : String → Option Json) (events : List SSEEvent) :
    List (Int × Json) :=
  (events.foldl (handleSSEEvent jsonParse) ⟨initSSEMessage, []⟩).contentBlocks

/-- State of the SSE line scanner: completed events and the event under
construction. -/
structure SSELineState where
  events : List SSEEvent
  current : Option SSEEvent
deriving DecidableEq

/-- One line of the SSE scanner of `parseSSEResponse`
(source lines 260–279). -/
def handleSSELine (jsonParse : String → Option Json) (st : SSELineState)
    (line : String) : SSELineState :=
  if listPrefixOf "event: ".data line.data then
    let pushed := match st.current with | some e => st.events ++ [e] | none => st.events
    { events := pushed,
      current := some ⟨jsTrim (String.mk (line.data.drop 7)), none⟩ }
  else if listPrefixOf "data: ".data line.data then
    match st.current with
    | some e =>
      let dataStr := jsTrim (String.mk (line.data.drop 6))
      { st with current := some { e with data := some ((jsonParse dataStr).getD (Json.str dataStr)) } }
    | none => st
  else if jsIsBlank line then
    match st.current with
    | some e => { events := st.events ++ [e], current := none }
    | none => st
  else st

/-- The SSE line-scanning phase of `parseSSEResponse`. -/
def parseSSELines (jsonParse : String → Option Json) (content : String) : List SSEEvent :=
  let st := (splitLines content).foldl (handleSSELine jsonParse) ⟨[], none⟩
  match st.current with
  | some e => st.events ++ [e]
  | none => st.events

/-- The whole of `parseSSEResponse`: scan the lines into events, then
merge the events into one message. -/
def parseSSEResponse (jsonParse : String → Option Json) (bodyContent : String) : Json :=
  mergeSSEEvents jsonParse (parseSSELines jsonParse bodyContent)

/-- A loaded trace. The source record also carries `endpoint` and
`filePath`, which no verified property reads; they are omitted. -/
structure Trace where
  timestamp : Nat
  type : String
  data : Json
deriving DecidableEq

/-- ASCII digit test. -/
def isDigitChar (c : Char) : Bool := 48 ≤ c.toNat ∧ c.toNat ≤ 57

/-- Numeric value of a digit run (the `parseInt` of the timestamp match). -/
def digitsToNat (ds : List Char) : Nat :=
  ds.foldl (fun acc c => acc * 10 + (c.toNat - 48)) 0

/-- Try to match the regular expression `\[(\d+)\]` at the head of the
character list. -/
def matchBracketNumAt (l : List Char) : Option Nat :=
  match l with
  | '[' :: rest =>
    let ds := rest.takeWhile isDigitChar
    if ds ≠ [] ∧ listPrefixOf [']'] (rest.drop ds.length) then some (digitsToNat ds)
    else none
  | _ => none

/-- First match of `\[(\d+)\]` in the filename (the timestamp capture). -/
def findBracketNum : List Char → Option Nat
  | [] => none
  | l@(_ :: rest) =>
    match matchBracketNumAt l with
    | some n => some n
    | none => findBracketNum rest

/-- The request fields kept by the loader. -/
def importantFields : List String := ["model", "messages", "tools", "system", "thinking"]

/-- Keep only the important request fields, in the fixed order of the
`importantFields.forEach` loop. -/
def filterImportantFields (d : Json) : Json :=
  jobj (importantFields.filterMap (fun f => (d.get? f).map (fun v => (f, v))))

/-- The sanitize-and-filter pipeline applied inside the `try` of
`parseLLMFile`. `none` models the `TypeError` thrown by a field read on a
`null` payload, which the surrounding `catch` turns into the raw
fallback. -/
def processTraceData (ty : String) (d0 : Json) : Option Json :=
  let d := removeUnwantedFields d0
  if ty = "request" then
    match d with
    | .null => none
    | .obj _ => some (filterImportantFields d)
    | _ => some (jobj [])
  else
    match d with
    | .null => none
    | _ =>
      match d.get? "content" with
      | some c => some (jobj [("content", c)])
      | none => some d

/-- The `catch` fallback: keep the raw unparsed text. -/
def rawPayload (content : String) : Json := jobj [("raw", Json.str content)]

/-- The loader `parseLLMFile`, over a filename and the file's text. -/
def parseLLMFile (jsonParse : String → Option Json) (filename content : String) : Trace :=
  let timestamp := (findBracketNum filename.data).getD 0
  let ty := if strContains (strToLower filename) "request" then "request" else "response"
  let data :=
    if strEndsWith filename ".json" then
      match jsonParse content with
      | some d => (processTraceData ty d).getD (rawPayload content)
      | none => rawPayload content
    else
      (processTraceData ty (parseSSEResponse jsonParse content)).getD (rawPayload content)
  { timestamp := timestamp, type := ty, data := data }

/-- A directory entry of an example directory. -/
structure ExampleFile where
  name : String
  content : String
  isDirectory : Bool
deriving DecidableEq

/-- The trace-file filter of `parseExample`: name contains the API marker
and the entry is not a directory. -/
def isTraceFile (f : ExampleFile) : Bool :=
  strContains f.name "api.anthropic.com" && !f.isDirectory

/-- Ascending-timestamp order on traces (the sort comparator
`(a, b) => a.timestamp - b.timestamp`). -/
def traceLE (a b : Trace) : Prop := a.timestamp ≤ b.timestamp

instance : DecidableRel traceLE := fun a b => Nat.decLe a.timestamp b.timestamp

instance : IsTotal Trace traceLE := ⟨fun a b => Nat.le_total a.timestamp b.timestamp⟩

instance : IsTrans Trace traceLE := ⟨fun _ _ _ hab hbc => Nat.le_trans hab hbc⟩

/-- The trace-loading pipeline of `parseExample`: filter the directory
listing, parse every file, sort ascending by timestamp. The source's
`sort((a, b) => a.timestamp - b.timestamp)` is a stable ascending sort;
it is modelled by a stable ascending sort. -/
def parseExampleTraces (jsonParse : String → Option Json) (files : List ExampleFile) :
    List Trace :=
  ((files.filter isTraceFile).map
    (fun f => parseLLMFile jsonParse f.name f.content)).insertionSort traceLE

/-- The `type` field of a content item when it is a string, else `""`
(a non-string `type` compares unequal to every type name, as in the
source's `===` tests). -/
def getTypeStr (j : Json) : String :=
  match j.get? "type" with
  | some (.str s) => s
  | _ => ""

/-- `getHashableContent`: strings hash as themselves, text/thinking items
with a truthy payload hash as that payload, everything else as its JSON
serialization. -/
def getHashableContent (contentItem : Json) : String :=
  match contentItem with
  | .str s => s
  | .obj _ =>
    if getTypeStr contentItem = "text" ∧ jsTruthyOpt (contentItem.get? "text") then
      jsToString ((contentItem.get? "text").getD .null)
    else if getTypeStr contentItem = "thinking" ∧ jsTruthyOpt (contentItem.get? "thinking") then
      jsToString ((contentItem.get? "thinking").getD .null)
    else jsonStringify contentItem
  | _ => jsonStringify contentItem

/-- `Array.isArray(system) ? system : [system]`. -/
def systemItemsOf (sys : Json) : List Json :=
  if isArr sys then getArr sys else [sys]

/-- The system items contributing blocks and hashes (present and truthy). -/
def sysHashItems (trace : Trace) : List Json :=
  match trace.data.get? "system" with
  | some sys => if jsTruthy sys then systemItemsOf sys else []
  | none => []

/-- The tool definitions contributing blocks and hashes
(`trace.data.tools && trace.data.tools.length > 0`). -/
def toolItemsOf (trace : Trace) : List Json :=
  match trace.data.get? "tools" with
  | some ts => if jsTruthy ts ∧ (getArr ts).length > 0 then getArr ts else []
  | none => []

/-- The message list of a request (`trace.data.messages`, when truthy). -/
def messagesOf (trace : Trace) : List Json :=
  match trace.data.get? "messages" with
  | some ms => if jsTruthy ms then getArr ms else []
  | none => []

/-- `msg.content`, with an absent field modelled as `null`. -/
def msgContent (msg : Json) : Json := (msg.get? "content").getD Json.null

/-- The split condition `isContentArray && msg.content.length > 0`. -/
def msgIsSplit (msg : Json) : Bool :=
  isArr (msgContent msg) && (getArr (msgContent msg)).length > 0

/-- `generateBlockHashSequence`: the flattened hash sequence of a request
trace — system items, then tool definitions, then message content. -/
def generateBlockHashSequence (trace : Trace) : List String :=
  if trace.type ≠ "request" then [] else
  (sysHashItems trace).map (fun item => simpleHash (jsonStringify item)) ++
  (toolItemsOf trace).map (fun tool => simpleHash (jsonStringify tool)) ++
  (messagesOf trace).flatMap (fun msg =>
    if msgIsSplit msg then
      (getArr (msgContent msg)).map (fun ci => simpleHash (getHashableContent ci))
    else [simpleHash (getHashableContent (msgContent msg))])

/-- `countMatchingPrefixBlocks`: count consecutive equal leading hashes,
stopping at the first mismatch (or at the end of either sequence). -/
def countMatchingPrefixBlocks : List String → List String → Nat
  | a :: as, b :: bs => if a = b then countMatchingPrefixBlocks as bs + 1 else 0
  | _, _ => 0

/-- The number of system blocks of the current request trace. -/
def systemBlockCount (trace : Trace) : Nat := (sysHashItems trace).length

/-- Content items of a response trace
(`t.type === 'response' && t.data.content`). -/
def responseContentItems (t : Trace) : List Json :=
  if t.type = "response" ∧ jsTruthyOpt (t.data.get? "content") then
    getArr ((t.data.get? "content").getD Json.null)
  else []

/-- All response content items strictly before `traceIdx`
(the `for (let i = 0; i < traceIdx; i++)` collection loop). -/
def previousResponseItems (allTraces : List Trace) (traceIdx : Nat) : List Json :=
  (allTraces.take traceIdx).flatMap responseContentItems

/-- Whether a previous-response item enters the id set rather than the
hash set. -/
def isResponseIdItem (item : Json) : Bool :=
  (getTypeStr item = "tool_use" ∧ jsTruthyOpt (item.get? "id")) ∨
  (getTypeStr item = "server_tool_use" ∧ jsTruthyOpt (item.get? "id"))

/-- The `previousResponseHashes` set (as a list; only membership is used). -/
def previousResponseHashes (allTraces : List Trace) (traceIdx : Nat) : List String :=
  (previousResponseItems allTraces traceIdx).filterMap
    (fun item =>
      if isResponseIdItem item then none
      else some (simpleHash (getHashableContent item)))

/-- The `previousResponseToolUseIds` set (as a list). -/
def previousResponseToolUseIds (allTraces : List Trace) (traceIdx : Nat) : List Json :=
  (previousResponseItems allTraces traceIdx).filterMap
    (fun item =>
      if isResponseIdItem item then some ((item.get? "id").getD Json.null)
      else none)

/-- The backwards search for the previous `main`-level request. -/
def findPrevMain (allTraces : List Trace) (traceLevels : List String) : Nat → Option Trace
  | 0 => none
  | i + 1 =>
    match allTraces.get? i with
    | some t =>
      if t.type = "request" ∧ traceLevels.get? i = some "main" then some t
      else findPrevMain allTraces traceLevels i
    | none => findPrevMain allTraces traceLevels i

/-- The backwards search for the previous `second`-level request, stopped
by an intervening `main` request. -/
def findPrevSecond (allTraces : List Trace) (traceLevels : List String) : Nat → Option Trace
  | 0 => none
  | i + 1 =>
    match allTraces.get? i with
    | some t =>
      if t.type = "request" then
        if traceLevels.get? i = some "main" then none
        else if traceLevels.get? i = some "second" then some t
        else findPrevSecond allTraces traceLevels i
      else findPrevSecond allTraces traceLevels i
    | none => findPrevSecond allTraces traceLevels i

/-- The predecessor selection of `renderBlocks` (level-based). -/
def findCompareWith (allTraces : List Trace) (traceLevels : List String)
    (currentLevel : String) (traceIdx : Nat) : Option Trace :=
  if currentLevel = "main" then findPrevMain allTraces traceLevels traceIdx
  else if currentLevel = "second" then findPrevSecond allTraces traceLevels traceIdx
  else none

/-- `continuedBlockCount`: the prefix-match count against the selected
predecessor, applied only when it exceeds the system-block count. -/
def continuedBlockCount (allTraces : List Trace) (traceLevels : List String)
    (currentLevel : String) (traceIdx : Nat) (trace : Trace) : Nat :=
  match findCompareWith allTraces traceLevels currentLevel traceIdx with
  | some prev =>
    let m := countMatchingPrefixBlocks (generateBlockHashSequence prev)
      (generateBlockHashSequence trace)
    if m > systemBlockCount trace then m else 0
  | none => 0

/-- One display block of a request trace, tagged with the section it came
from (system / tool / split message item / whole-message scalar). -/
inductive RBlock where
  | sys (item : Json)
  | tool (item : Json)
  | msgItem (item : Json)
  | msgScalar (content : Json)
deriving DecidableEq

/-- The display blocks of a request trace, in rendering order — the same
walk (same conditions, same order) as `generateBlockHashSequence`. -/
def requestBlockItems (trace : Trace) : List RBlock :=
  (sysHashItems trace).map RBlock.sys ++
  (toolItemsOf trace).map RBlock.tool ++
  (messagesOf trace).flatMap (fun msg =>
    if msgIsSplit msg then (getArr (msgContent msg)).map RBlock.msgItem
    else [RBlock.msgScalar (msgContent msg)])

/-- The hash the walk computes for each block. -/
def rblockHash : RBlock → String
  | .sys item => simpleHash (jsonStringify item)
  | .tool item => simpleHash (jsonStringify item)
  | .msgItem item => simpleHash (getHashableContent item)
  | .msgScalar c => simpleHash (getHashableContent c)

/-- The `isContinuedFromResponse` test of each block: `tool_use` items
with a truthy id are looked up in the id set, everything else by hash. -/
def rblockSecondary (respHashes : List String) (respIds : List Json) : RBlock → Bool
  | .sys item => respHashes.contains (simpleHash (jsonStringify item))
  | .tool item => respHashes.contains (simpleHash (jsonStringify item))
  | .msgItem item =>
    if getTypeStr item = "tool_use" ∧ jsTruthyOpt (item.get? "id") then
      respIds.contains ((item.get? "id").getD Json.null)
    else respHashes.contains (simpleHash (getHashableContent item))
  | .msgScalar c => respHashes.contains (simpleHash (getHashableContent c))

/-- The continuation marks computed for one block. -/
structure BlockInfo where
  fromPrefix : Bool
  fromResponse : Bool
deriving DecidableEq

/-- The final mark: `isContinuedFromPrefix || isContinuedFromResponse`. -/
def BlockInfo.isContinued (b : BlockInfo) : Bool := b.fromPrefix || b.fromResponse

/-- The `isContinued` computation of `renderBlocks` for the request trace
at `traceIdx`: one `BlockInfo` per display block, in rendering order
(`blockIdx` becomes the list position). -/
def renderBlockInfos (allTraces : List Trace) (traceLevels : List String)
    (currentLevel : String) (traceIdx : Nat) : List BlockInfo :=
  match allTraces.get? traceIdx with
  | none => []
  | some trace =>
    if trace.type ≠ "request" then [] else
    let cnt := continuedBlockCount allTraces traceLevels currentLevel traceIdx trace
    let rh := previousResponseHashes allTraces traceIdx
    let rid := previousResponseToolUseIds allTraces traceIdx
    (requestBlockItems trace).enum.map
      (fun q => ⟨decide (q.1 < cnt), rblockSecondary rh rid q.2⟩)

mutual

theorem noUnwantedKeys_remove : ∀ j : Json,
    noUnwantedKeys (removeUnwantedFields j) = true
  | .null => rfl
  | .bool _ => rfl
  | .num _ => rfl
  | .str _ => rfl
  | .arr es => by
      simpa [removeUnwantedFields, noUnwantedKeys] using noUnwantedKeysList_remove es
  | .obj fs => by
      simpa [removeUnwantedFields, noUnwantedKeys] using noUnwantedKeysObj_remove fs

theorem noUnwantedKeysList_remove : ∀ es : JsonList,
    noUnwantedKeysList (removeUnwantedFieldsList es) = true
  | .nil => rfl
  | .cons h t => by
      simp [removeUnwantedFieldsList, noUnwantedKeysList,
        noUnwantedKeys_remove h, noUnwantedKeysList_remove t]

theorem noUnwantedKeysObj_remove : ∀ o : JsonObj,
    noUnwantedKeysObj (removeUnwantedFieldsObj o) = true
  | .nil => rfl
  | .cons k v t => by
      by_cases h : k ∈ unwantedFields
      · simp [removeUnwantedFieldsObj, h, noUnwantedKeysObj_remove t]
      · simp [removeUnwantedFieldsObj, h, noUnwantedKeysObj,
          noUnwantedKeys_remove v, noUnwantedKeysObj_remove t]

end

mutual

theorem removeUnwantedFields_idem : ∀ j : Json,
    removeUnwantedFields (removeUnwantedFields j) = removeUnwantedFields j
  | .null => rfl
  | .bool _ => rfl
  | .num _ => rfl
  | .str _ => rfl
  | .arr es => by
      simp [removeUnwantedFields, removeUnwantedFieldsList_idem es]
  | .obj fs => by
      simp [removeUnwantedFields, removeUnwantedFieldsObj_idem fs]

theorem removeUnwantedFieldsList_idem : ∀ es : JsonList,
    removeUnwantedFieldsList (removeUnwantedFieldsList es) = removeUnwantedFieldsList es
  | .nil => rfl
  | .cons h t => by
      simp [removeUnwantedFieldsList, removeUnwantedFields_idem h,
        removeUnwantedFieldsList_idem t]

theorem removeUnwantedFieldsObj_idem : ∀ o : JsonObj,
    removeUnwantedFieldsObj (removeUnwantedFieldsObj o) = removeUnwantedFieldsObj o
  | .nil => rfl
  | .cons k v t => by
      by_cases h : k ∈ unwantedFields
      · simp [removeUnwantedFieldsObj, h, removeUnwantedFieldsObj_idem t]
      · simp [removeUnwantedFieldsObj, h, removeUnwantedFields_idem v,
          removeUnwantedFieldsObj_idem t]

end

/-- C3: for every JSON value, the sanitizer's output contains no
`signature` or `cache_control` key at any nesting depth, and the
sanitizer is idempotent — its output is a fixed point. -/
theorem removeUnwantedFields_denylist_and_idempotent (j : Json) :
    noUnwantedKeys (removeUnwantedFields j) = true ∧
      removeUnwantedFields (removeUnwantedFields j) = removeUnwantedFields j :=
  ⟨noUnwantedKeys_remove j, removeUnwantedFields_idem j⟩

/-- C9: `parseLLMFile` classifies a file as a request exactly when its
lowercased filename contains `request`; every other file — with or
without a `Response` marker — is classified as a response. -/
theorem parseLLMFile_type_classification (p : String → Option Json)
    (filename content : String) :
    ((parseLLMFile p filename content).type = "request" ↔
      strContains (strToLower filename) "request" = true) ∧
    (strContains (strToLower filename) "request" = false →
      (parseLLMFile p filename content).type = "response") := by
  unfold parseLLMFile
  by_cases h : strContains (strToLower filename) "request" = true <;> simp [h]

/-- Witness for C9 on a request-marked filename and on a filename with
neither marker. -/
theorem parseLLMFile_type_classification_witness :
    (parseLLMFile (fun _ => none)
        "[12] Request - api.anthropic.com_v1_messages.txt" "x").type = "request" ∧
    (parseLLMFile (fun _ => none) "notes.txt" "x").type = "response" :=
  ⟨(parseLLMFile_type_classification (fun _ => none)
      "[12] Request - api.anthropic.com_v1_messages.txt" "x").1.mpr (by decide),
   (parseLLMFile_type_classification (fun _ => none) "notes.txt" "x").2 (by decide)⟩

theorem handleSSEEvent_skip (p : String → Option Json) (st : DecodeState)
    (e : SSEEvent) (h : jsTruthyOpt e.data = false) :
    handleSSEEvent p st e = st := by
  obtain ⟨ty, dt⟩ := e
  cases dt with
  | none => rfl
  | some d =>
    simp only [jsTruthyOpt] at h
    simp [handleSSEEvent, h]

theorem foldl_handleSSEEvent_skip (p : String → Option Json) :
    ∀ (events : List SSEEvent) (st : DecodeState),
      (∀ e ∈ events, jsTruthyOpt e.data = false) →
      events.foldl (handleSSEEvent p) st = st
  | [], _, _ => rfl
  | e :: rest, st, h => by
    rw [List.foldl_cons, handleSSEEvent_skip p st e (h e (by simp))]
    exact foldl_handleSSEEvent_skip p rest st (fun e' he' => h e' (by simp [he']))

/-- C10: an event sequence with no usable payload (every event's data
absent or falsy — in particular the empty sequence) still decodes to the
complete default message: empty model and id, type `message`, role
`assistant`, empty content array, null stop fields, empty usage. -/
theorem mergeSSEEvents_no_usable_payload (p : String → Option Json)
    (events : List SSEEvent) (h : ∀ e ∈ events, jsTruthyOpt e.data = false) :
    mergeSSEEvents p events =
      jobj [("model", .str ""), ("id", .str ""), ("type", .str "message"),
            ("role", .str "assistant"), ("content", jarr []),
            ("stop_reason", .null), ("stop_sequence", .null), ("usage", jobj [])] := by
  unfold mergeSSEEvents
  rw [foldl_handleSSEEvent_skip p events ⟨initSSEMessage, []⟩ h]
  decide

/-- Witness for C10: a stream of a data-less event and a falsy-data
event decodes to the default message. -/
theorem mergeSSEEvents_no_usable_payload_witness :
    mergeSSEEvents (fun _ => none)
        [⟨"message_start", none⟩, ⟨"content_block_start", some (Json.str "")⟩] =
      jobj [("model", .str ""), ("id", .str ""), ("type", .str "message"),
            ("role", .str "assistant"), ("content", jarr []),
            ("stop_reason", .null), ("stop_sequence", .null), ("usage", jobj [])] :=
  mergeSSEEvents_no_usable_payload (fun _ => none) _ (by decide)

/-- In-order concatenation of a list of strings. -/
def strJoin : List String → String
  | [] => ""
  | s :: rest => s ++ strJoin rest

/-- A `content_block_start` event registering `cb` at `idx`. -/
def blockStartEvent (idx : Int) (cb : Json) : SSEEvent :=
  ⟨"content_block_start", some (jobj [("index", .num idx), ("content_block", cb)])⟩

/-- An `input_json_delta` content-block delta carrying one fragment. -/
def inputDeltaEvent (idx : Int) (s : String) : SSEEvent :=
  ⟨"content_block_delta", some (jobj [("index", .num idx),
    ("delta", jobj [("type", .str "input_json_delta"), ("partial_json", .str s)])])⟩

/-- A `text_delta` content-block delta. -/
def textDeltaEvent (idx : Int) (s : String) : SSEEvent :=
  ⟨"content_block_delta", some (jobj [("index", .num idx),
    ("delta", jobj [("type", .str "text_delta"), ("text", .str s)])])⟩

/-- A `thinking_delta` content-block delta. -/
def thinkingDeltaEvent (idx : Int) (s : String) : SSEEvent :=
  ⟨"content_block_delta", some (jobj [("index", .num idx),
    ("delta", jobj [("type", .str "thinking_delta"), ("thinking", .str s)])])⟩

/-- A `content_block_stop` event at `idx`. -/
def blockStopEvent (idx : Int) : SSEEvent :=
  ⟨"content_block_stop", some (jobj [("index", .num idx)])⟩


theorem JsonObj.get?_set_self : ∀ (o : JsonObj) (k : String) (v : Json),
    (o.set k v).get? k = some v
  | .nil, k, v => by simp [JsonObj.set, JsonObj.get?]
  | .cons k' w t, k, v => by
    by_cases h : k' = k <;>
      simp [JsonObj.set, JsonObj.get?, h, JsonObj.get?_set_self t k v]

theorem JsonObj.set_set : ∀ (o : JsonObj) (k : String) (v w : Json),
    (o.set k v).set k w = o.set k w
  | .nil, k, v, w => by simp [JsonObj.set]
  | .cons k' u t, k, v, w => by
    by_cases h : k' = k <;> simp [JsonObj.set, h, JsonObj.set_set t k v w]

theorem JsonObj.set_of_get? : ∀ (o : JsonObj) (k : String) (v : Json),
    o.get? k = some v → o.set k v = o
  | .nil, k, v, h => by simp [JsonObj.get?] at h
  | .cons k' w t, k, v, h => by
    by_cases hk : k' = k
    · subst hk
      simp [JsonObj.get?] at h
      simp [JsonObj.set, h]
    · simp [JsonObj.get?, hk] at h
      simp [JsonObj.set, hk, JsonObj.set_of_get? t k v h]

theorem Json.setField_setField (j : Json) (k : String) (v w : Json) :
    (j.setField k v).setField k w = j.setField k w := by
  cases j <;> simp [Json.setField, JsonObj.set_set]

theorem jsOrEmptyStr_str (a : String) :
    jsOrEmptyStr (some (.str a)) = .str a := by
  by_cases h : a = "" <;> simp [jsOrEmptyStr, jsTruthy, h]

theorem jsConcatAppend_str (a b : String) :
    jsConcatAppend (some (.str a)) (some (.str b)) = .str (a ++ b) := by
  simp [jsConcatAppend, jsOrEmptyStr_str, jsToString, jsToStringOpt]

theorem getIndex?_jobj_index (idx : Int) (rest : List (String × Json)) :
    getIndex? (jobj (("index", .num idx) :: rest)) = some idx := by
  simp [getIndex?, jobj, JsonObj.ofList, Json.get?, JsonObj.get?]

theorem jobj_get? (k : String) (v : Json) (rest : List (String × Json)) :
    (jobj ((k, v) :: rest)).get? k = some v := by
  simp [jobj, JsonObj.ofList, Json.get?, JsonObj.get?]

theorem jsTruthy_jobj (l : List (String × Json)) : jsTruthy (jobj l) = true := rfl

theorem handle_blockStart (p : String → Option Json) (st : DecodeState)
    (idx : Int) (cb : Json) :
    handleSSEEvent p st (blockStartEvent idx cb) =
      { st with contentBlocks := blocksSet st.contentBlocks idx (jsSpread cb) } := by
  have hcb : (jobj [("index", .num idx), ("content_block", cb)]).get? "content_block"
      = some cb := by
    simp [jobj, JsonObj.ofList, Json.get?, JsonObj.get?]
  simp [handleSSEEvent, blockStartEvent, jsTruthy_jobj,
    getIndex?_jobj_index idx [("content_block", cb)], hcb]

theorem inputDelta_payload_parts (idx : Int) (s : String) :
    (jobj [("index", .num idx),
        ("delta", jobj [("type", .str "input_json_delta"), ("partial_json", .str s)])]).get?
      "delta" = some (jobj [("type", .str "input_json_delta"), ("partial_json", .str s)]) ∧
    deltaKind (jobj [("type", .str "input_json_delta"), ("partial_json", .str s)])
      = "input_json_delta" ∧
    (jobj [("type", .str "input_json_delta"), ("partial_json", .str s)]).get? "partial_json"
      = some (.str s) := by
  refine ⟨?_, ?_, ?_⟩ <;>
    simp [jobj, JsonObj.ofList, Json.get?, JsonObj.get?, deltaKind]

theorem handle_inputDelta_existing (p : String → Option Json) (st : DecodeState)
    (idx : Int) (s : String) (b : Json)
    (hb : blocksGet? st.contentBlocks idx = some b)
    (hin : isObjectTy (b.get? "input") = false) :
    handleSSEEvent p st (inputDeltaEvent idx s) =
      ⟨st.message, blocksSet st.contentBlocks idx
        (b.setField "input" (jsConcatAppend (b.get? "input") (some (.str s))))⟩ := by
  obtain ⟨h1, h2, h3⟩ := inputDelta_payload_parts idx s
  simp [handleSSEEvent, inputDeltaEvent, jsTruthy_jobj,
    getIndex?_jobj_index, h1, h2, h3, hb, hin]

theorem handle_inputDelta_reset (p : String → Option Json) (st : DecodeState)
    (idx : Int) (s : String) (o : JsonObj)
    (hb : blocksGet? st.contentBlocks idx = some (Json.obj o))
    (hin : isObjectTy ((Json.obj o).get? "input") = true) :
    handleSSEEvent p st (inputDeltaEvent idx s) =
      ⟨st.message, blocksSet st.contentBlocks idx
        ((Json.obj o).setField "input" (.str s))⟩ := by
  obtain ⟨h1, h2, h3⟩ := inputDelta_payload_parts idx s
  have hget : ((Json.obj o).setField "input" (.str "")).get? "input" = some (.str "") := by
    simp [Json.setField, Json.get?, JsonObj.get?_set_self]
  simp [handleSSEEvent, inputDeltaEvent, jsTruthy_jobj,
    getIndex?_jobj_index, h1, h2, h3, hb, hin, hget, jsConcatAppend_str,
    Json.setField_setField]

theorem handle_blockStop_parse (p : String → Option Json) (st : DecodeState)
    (idx : Int) (b : Json) (s : String) (j : Json)
    (hb : blocksGet? st.contentBlocks idx = some b)
    (hs : b.get? "input" = some (.str s))
    (hblank : jsIsBlank s = false) (hp : p s = some j) :
    handleSSEEvent p st (blockStopEvent idx) =
      { st with contentBlocks := blocksSet st.contentBlocks idx (b.setField "input" j) } := by
  simp [handleSSEEvent, blockStopEvent, jsTruthy_jobj, getIndex?_jobj_index,
    hb, hs, hblank, hp]

theorem handle_blockStop_blank (p : String → Option Json) (st : DecodeState)
    (idx : Int) (b : Json) (s : String)
    (hb : blocksGet? st.contentBlocks idx = some b)
    (hs : b.get? "input" = some (.str s))
    (hblank : jsIsBlank s = true) :
    handleSSEEvent p st (blockStopEvent idx) =
      ⟨st.message, blocksSet st.contentBlocks idx (b.setField "input" (jobj []))⟩ := by
  simp [handleSSEEvent, blockStopEvent, jsTruthy_jobj, getIndex?_jobj_index,
    hb, hs, hblank]

theorem foldl_inputDeltas (p : String → Option Json) (idx : Int) :
    ∀ (fr : List String) (m : Json) (o : JsonObj) (acc : String),
      JsonObj.get? o "input" = some (.str acc) →
      (fr.map (inputDeltaEvent idx)).foldl (handleSSEEvent p) ⟨m, [(idx, Json.obj o)]⟩
        = ⟨m, [(idx, Json.obj (o.set "input" (.str (acc ++ strJoin fr))))]⟩
  | [], m, o, acc, h => by
      simp [strJoin]
      exact (JsonObj.set_of_get? o "input" (.str acc) h).symm
  | f :: fr, m, o, acc, h => by
      rw [List.map_cons, List.foldl_cons]
      rw [handle_inputDelta_existing p _ idx f (Json.obj o)
        (by simp [blocksGet?]) (by simp [Json.get?, h, isObjectTy])]
      have hval : jsConcatAppend ((Json.obj o).get? "input") (some (.str f))
          = .str (acc ++ f) := by
        simp only [Json.get?, h]
        exact jsConcatAppend_str acc f
      rw [hval]
      have hset : blocksSet [(idx, Json.obj o)] idx
            ((Json.obj o).setField "input" (.str (acc ++ f)))
          = [(idx, Json.obj (o.set "input" (.str (acc ++ f))))] := by
        simp [blocksSet, Json.setField]
      simp only [hset]
      rw [foldl_inputDeltas p idx fr m (o.set "input" (.str (acc ++ f))) (acc ++ f)
          (JsonObj.get?_set_self o "input" (.str (acc ++ f)))]
      simp [JsonObj.set_set, strJoin, String.append_assoc]

theorem blocksGet?_cons_self (i : Int) (b : Json) (rest : List (Int × Json)) :
    blocksGet? ((i, b) :: rest) i = some b := by
  simp [blocksGet?]

theorem blocksSet_cons_self (i : Int) (b v : Json) (rest : List (Int × Json)) :
    blocksSet ((i, b) :: rest) i v = (i, v) :: rest := by
  simp [blocksSet]

theorem sseFinalize_single_init (idx : Int) (b : Json) :
    (sseFinalize ⟨initSSEMessage, [(idx, b)]⟩).get? "content" = some (jarr [b]) := by
  simp [sseFinalize, blocksGet?, initSSEMessage, jobj, JsonObj.ofList,
    Json.setField, JsonObj.set, Json.get?, JsonObj.get?,
    List.insertionSort, List.orderedInsert]

/-- C1: a stream that starts a `tool_use` block whose `input` is a
structured placeholder, streams one or more `input_json_delta` fragments
at the same index, and stops the block, decodes to a single content block
whose `input` is the JSON value parsed from the in-order concatenation of
the fragments; when the accumulated string is empty the `input` becomes
the empty object instead. -/
theorem parseSSE_toolUse_input_accumulation (p : String → Option Json)
    (idx : Int) (o : JsonObj) (frags : List String) (hne : frags ≠ [])
    (hstruct : isObjectTy ((Json.obj o).get? "input") = true) :
    (∀ j, jsIsBlank (strJoin frags) = false → p (strJoin frags) = some j →
      (mergeSSEEvents p (blockStartEvent idx (Json.obj o) ::
          (frags.map (inputDeltaEvent idx) ++ [blockStopEvent idx]))).get? "content"
        = some (jarr [(Json.obj o).setField "input" j])) ∧
    (strJoin frags = "" →
      (mergeSSEEvents p (blockStartEvent idx (Json.obj o) ::
          (frags.map (inputDeltaEvent idx) ++ [blockStopEvent idx]))).get? "content"
        = some (jarr [(Json.obj o).setField "input" (jobj [])])) := by
  cases frags with
  | nil => exact absurd rfl hne
  | cons f fr =>
    have hstate : List.foldl (handleSSEEvent p) ⟨initSSEMessage, []⟩
        (blockStartEvent idx (Json.obj o) ::
          ((f :: fr).map (inputDeltaEvent idx) ++ [blockStopEvent idx]))
        = handleSSEEvent p
            ⟨initSSEMessage, [(idx, Json.obj (o.set "input" (.str (strJoin (f :: fr)))))]⟩
            (blockStopEvent idx) := by
      rw [List.foldl_cons, handle_blockStart]
      show List.foldl (handleSSEEvent p) ⟨initSSEMessage, [(idx, Json.obj o)]⟩
          ((f :: fr).map (inputDeltaEvent idx) ++ [blockStopEvent idx])
          = handleSSEEvent p
              ⟨initSSEMessage, [(idx, Json.obj (o.set "input" (.str (strJoin (f :: fr)))))]⟩
              (blockStopEvent idx)
      rw [List.foldl_append]
      have hinner : List.foldl (handleSSEEvent p) ⟨initSSEMessage, [(idx, Json.obj o)]⟩
          ((f :: fr).map (inputDeltaEvent idx))
          = ⟨initSSEMessage, [(idx, Json.obj (o.set "input" (.str (strJoin (f :: fr)))))]⟩ := by
        rw [List.map_cons, List.foldl_cons,
          handle_inputDelta_reset p ⟨initSSEMessage, [(idx, Json.obj o)]⟩ idx f o
            (blocksGet?_cons_self idx (Json.obj o) []) hstruct]
        simp only [blocksSet_cons_self]
        show List.foldl (handleSSEEvent p)
            ⟨initSSEMessage, [(idx, Json.obj (o.set "input" (.str f)))]⟩
            (fr.map (inputDeltaEvent idx))
            = ⟨initSSEMessage, [(idx, Json.obj (o.set "input" (.str (strJoin (f :: fr)))))]⟩
        rw [foldl_inputDeltas p idx fr initSSEMessage (o.set "input" (.str f)) f
          (JsonObj.get?_set_self o "input" (.str f))]
        rw [JsonObj.set_set]
        rfl
      rw [hinner]
      rfl
    constructor
    · intro j hblank hp
      have hsS : (Json.obj (o.set "input" (.str (strJoin (f :: fr))))).get? "input"
          = some (.str (strJoin (f :: fr))) := by
        simp [Json.get?, JsonObj.get?_set_self]
      simp only [mergeSSEEvents, hstate]
      rw [handle_blockStop_parse p _ idx _ _ j (blocksGet?_cons_self _ _ _) hsS hblank hp]
      simp only [blocksSet_cons_self]
      have hcollapse : (Json.obj (o.set "input" (.str (strJoin (f :: fr))))).setField "input" j
          = (Json.obj o).setField "input" j := by
        simp [Json.setField, JsonObj.set_set]
      rw [hcollapse]
      exact sseFinalize_single_init idx _
    · intro hS
      have hblank : jsIsBlank (strJoin (f :: fr)) = true := by
        rw [hS]
        rfl
      have hsS : (Json.obj (o.set "input" (.str (strJoin (f :: fr))))).get? "input"
          = some (.str (strJoin (f :: fr))) := by
        simp [Json.get?, JsonObj.get?_set_self]
      simp only [mergeSSEEvents, hstate]
      rw [handle_blockStop_blank p _ idx _ _ (blocksGet?_cons_self _ _ _) hsS hblank]
      simp only [blocksSet_cons_self]
      have hcollapse : (Json.obj (o.set "input" (.str (strJoin (f :: fr))))).setField "input"
            (jobj [])
          = (Json.obj o).setField "input" (jobj []) := by
        simp [Json.setField, JsonObj.set_set]
      rw [hcollapse]
      exact sseFinalize_single_init idx _

/-- A concrete `JSON.parse` oracle for the tool-input scenario. -/
def toolInputOracle : String → Option Json := fun s =>
  if s = "\x7b\"path\":\"x\"\x7d" then some (jobj [("path", .str "x")]) else none

/-- The `content_block_start` payload of the tool-input scenario. -/
def toolUseStartFields : JsonObj :=
  JsonObj.ofList [("type", .str "tool_use"), ("id", .str "toolu_AB12"),
    ("name", .str "Read"), ("input", jobj [])]

/-- Witness for C1 on the spec's own scenario: `Read` tool call streamed
as two partial-JSON fragments. -/
theorem parseSSE_toolUse_input_accumulation_witness :
    (mergeSSEEvents toolInputOracle (blockStartEvent 0 (Json.obj toolUseStartFields) ::
        (["\x7b\"path\"", ":\"x\"\x7d"].map (inputDeltaEvent 0) ++ [blockStopEvent 0]))).get?
      "content"
      = some (jarr [(Json.obj toolUseStartFields).setField "input"
          (jobj [("path", .str "x")])]) :=
  (parseSSE_toolUse_input_accumulation toolInputOracle 0 toolUseStartFields
      ["\x7b\"path\"", ":\"x\"\x7d"] (by decide) (by decide)).1
    (jobj [("path", .str "x")]) (by decide) (by decide)

theorem listPrefixOf_iff [DecidableEq α] :
    ∀ (p l : List α), listPrefixOf p l = true ↔ p <+: l
  | [], l => by simp [listPrefixOf]
  | a :: as, [] => by simp [listPrefixOf]
  | a :: as, b :: bs => by
    simp [listPrefixOf, List.cons_prefix_cons, listPrefixOf_iff as bs, and_comm]

theorem listInfixOf_iff [DecidableEq α] (p : List α) :
    ∀ l : List α, listInfixOf p l = true ↔ p <:+: l
  | [] => by
    simp [listInfixOf, listPrefixOf_iff]
  | c :: rest => by
    simp [listInfixOf, listPrefixOf_iff, listInfixOf_iff p rest,
      List.infix_cons_iff]

theorem strContains_self (s : String) : strContains s s = true := by
  simp [strContains, listInfixOf_iff]

theorem strContains_append_right (t u s : String) (h : strContains t s = true) :
    strContains (t ++ u) s = true := by
  simp only [strContains, listInfixOf_iff, String.data_append] at h ⊢
  exact h.trans (List.prefix_append t.data u.data).isInfix

theorem strContains_append_left (t s : String) : strContains (t ++ s) s = true := by
  simp only [strContains, listInfixOf_iff, String.data_append]
  exact (List.suffix_append t.data s.data).isInfix

theorem JsonObj.get?_set_ne : ∀ (o : JsonObj) (k k' : String) (v : Json),
    k ≠ k' → (o.set k v).get? k' = o.get? k'
  | .nil, k, k', v, h => by simp [JsonObj.set, JsonObj.get?, h]
  | .cons k0 w t, k, k', v, h => by
    by_cases h0 : k0 = k
    · subst h0
      simp [JsonObj.set, JsonObj.get?, h]
    · simp [JsonObj.set, JsonObj.get?, h0, JsonObj.get?_set_ne t k k' v h]

theorem blocksGet?_blocksSet_self : ∀ (bl : List (Int × Json)) (i : Int) (v : Json),
    blocksGet? (blocksSet bl i v) i = some v
  | [], i, v => by simp [blocksSet, blocksGet?]
  | (j, b) :: rest, i, v => by
    by_cases h : j = i <;>
      simp [blocksSet, blocksGet?, h, blocksGet?_blocksSet_self rest i v]

theorem blocksGet?_blocksSet_ne : ∀ (bl : List (Int × Json)) (i j : Int) (v : Json),
    i ≠ j → blocksGet? (blocksSet bl i v) j = blocksGet? bl j
  | [], i, j, v, h => by simp [blocksSet, blocksGet?, h]
  | (k, b) :: rest, i, j, v, h => by
    by_cases hk : k = i
    · have hkj : ¬ k = j := by omega
      simp [blocksSet, blocksGet?, hk, hkj, h]
    · simp [blocksSet, blocksGet?, hk, blocksGet?_blocksSet_ne rest i j v h]

theorem mem_fst_of_blocksGet? : ∀ (bl : List (Int × Json)) (i : Int) (b : Json),
    blocksGet? bl i = some b → i ∈ bl.map Prod.fst
  | [], i, b, h => by simp [blocksGet?] at h
  | (j, c) :: rest, i, b, h => by
    by_cases hj : j = i
    · simp [hj]
    · simp only [blocksGet?, if_neg hj] at h
      simp [mem_fst_of_blocksGet? rest i b h]

/-- The numeric index an event addresses, if any. -/
def eventIndex? (e : SSEEvent) : Option Int :=
  match e.data with
  | some d => getIndex? d
  | none => none

/-- Whether `e` is a `content_block_start` at index `idx`. -/
def isStartAt (idx : Int) (e : SSEEvent) : Bool :=
  decide (e.type = "content_block_start") && decide (eventIndex? e = some idx)

/-- Whether `e` is a `content_block_delta` at index `idx`. -/
def isDeltaAt (idx : Int) (e : SSEEvent) : Bool :=
  decide (e.type = "content_block_delta") && decide (eventIndex? e = some idx)

/-- The delta kind of a content-block delta event. -/
def eventDeltaKind (e : SSEEvent) : String :=
  match e.data with
  | some d => deltaKind ((d.get? "delta").getD Json.null)
  | none => ""

/-- The kind dispatch of the `content_block_delta` handler, applied to
the (possibly freshly created) in-progress block. -/
def deltaApply (delta : Json) (b : Json) : Json :=
  if deltaKind delta = "text_delta" then
    b.setField "text" (jsConcatAppend (b.get? "text") (delta.get? "text"))
  else if deltaKind delta = "thinking_delta" then
    b.setField "thinking" (jsConcatAppend (b.get? "thinking") (delta.get? "thinking"))
  else if deltaKind delta = "input_json_delta" then
    let b := if isObjectTy (b.get? "input") then b.setField "input" (Json.str "") else b
    b.setField "input" (jsConcatAppend (b.get? "input") (delta.get? "partial_json"))
  else b

theorem getIndex?_truthy (d : Json) (i : Int) (h : getIndex? d = some i) :
    jsTruthy d = true := by
  cases d <;> simp_all [getIndex?, Json.get?, jsTruthy]

theorem slot_after_delta (p : String → Option Json) (st : DecodeState)
    (d : Json) (idx : Int) (hidx : getIndex? d = some idx) :
    blocksGet? (handleSSEEvent p st ⟨"content_block_delta", some d⟩).contentBlocks idx
      = some (deltaApply ((d.get? "delta").getD Json.null)
          ((blocksGet? st.contentBlocks idx).getD
            (jobj [("type", Json.str (strReplaceFirst
              (deltaKind ((d.get? "delta").getD Json.null)) "_delta" ""))]))) := by
  simp only [handleSSEEvent, getIndex?_truthy d idx hidx, hidx]
  cases hslot : blocksGet? st.contentBlocks idx with
  | none =>
    simp [hslot, blocksGet?_blocksSet_self, deltaApply]
  | some b =>
    simp [hslot, blocksGet?_blocksSet_self, deltaApply]

theorem slot_after_handle (p : String → Option Json) (st : DecodeState) (e : SSEEvent)
    (idx : Int) (hstart : isStartAt idx e = false) (hdelta : isDeltaAt idx e = false) :
    blocksGet? (handleSSEEvent p st e).contentBlocks idx
        = blocksGet? st.contentBlocks idx ∨
      ∃ o v, blocksGet? st.contentBlocks idx = some (Json.obj o) ∧
        blocksGet? (handleSSEEvent p st e).contentBlocks idx
          = some (Json.obj (o.set "input" v)) := by
  obtain ⟨ty, dt⟩ := e
  cases dt with
  | none => left; rfl
  | some d =>
    by_cases htr : jsTruthy d
    case neg => left; simp [handleSSEEvent, htr]
    case pos =>
    by_cases h1 : ty = "message_start"
    · left; simp [handleSSEEvent, htr, h1]
    · by_cases h2 : ty = "content_block_start"
      · -- a start at a different index (or with no index)
        simp only [isStartAt, h2, eventIndex?] at hstart
        left
        cases hgi : getIndex? d with
        | none => simp [handleSSEEvent, htr, h1, h2, hgi]
        | some i =>
          have hne : i ≠ idx := by simpa [hgi] using hstart
          simp [handleSSEEvent, htr, h1, h2, hgi,
            blocksGet?_blocksSet_ne _ i idx _ hne]
      · by_cases h3 : ty = "content_block_delta"
        · -- a delta at a different index (or with no index)
          simp only [isDeltaAt, h3, eventIndex?] at hdelta
          left
          cases hgi : getIndex? d with
          | none => simp [handleSSEEvent, htr, h1, h2, h3, hgi]
          | some i =>
            have hne : i ≠ idx := by simpa [hgi] using hdelta
            cases hslot : blocksGet? st.contentBlocks i with
            | none =>
              simp [handleSSEEvent, htr, h1, h2, h3, hgi, hslot,
                blocksGet?_blocksSet_ne _ i idx _ hne]
            | some b =>
              simp [handleSSEEvent, htr, h1, h2, h3, hgi, hslot,
                blocksGet?_blocksSet_ne _ i idx _ hne]
        · by_cases h4 : ty = "content_block_stop"
          · cases hgi : getIndex? d with
            | none => left; simp [handleSSEEvent, htr, h1, h2, h3, h4, hgi]
            | some i =>
              by_cases hii : i = idx
              · subst hii
                cases hslot : blocksGet? st.contentBlocks i with
                | none => left; simp [handleSSEEvent, htr, h1, h2, h3, h4, hgi, hslot]
                | some b =>
                  cases b with
                  | obj o =>
                    cases hinp : (Json.obj o).get? "input" with
                    | none =>
                      left
                      simp [handleSSEEvent, htr, h1, h2, h3, h4, hgi, hslot, hinp]
                    | some w =>
                      cases w with
                      | str s =>
                        by_cases hbl : jsIsBlank s
                        · right
                          refine ⟨o, jobj [], rfl, ?_⟩
                          simp [handleSSEEvent, htr, h1, h2, h3, h4, hgi, hslot,
                            hinp, hbl, blocksGet?_blocksSet_self, Json.setField]
                        · cases hp : p s with
                          | none =>
                            left
                            simp [handleSSEEvent, htr, h1, h2, h3, h4, hgi, hslot,
                              hinp, hbl, hp]
                          | some v =>
                            right
                            refine ⟨o, v, rfl, ?_⟩
                            simp [handleSSEEvent, htr, h1, h2, h3, h4, hgi, hslot,
                              hinp, hbl, hp, blocksGet?_blocksSet_self, Json.setField]
                      | _ =>
                        left
                        simp [handleSSEEvent, htr, h1, h2, h3, h4, hgi, hslot, hinp]
                  | _ =>
                    left
                    simp_all [handleSSEEvent, htr, h1, h2, h3, h4, hgi, hslot, Json.get?]
              · left
                cases hslot : blocksGet? st.contentBlocks i with
                | none => simp [handleSSEEvent, htr, h1, h2, h3, h4, hgi, hslot]
                | some b =>
                  cases hinp : b.get? "input" with
                  | none => simp [handleSSEEvent, htr, h1, h2, h3, h4, hgi, hslot, hinp]
                  | some w =>
                    cases w with
                    | str s =>
                      by_cases hbl : jsIsBlank s
                      · simp [handleSSEEvent, htr, h1, h2, h3, h4, hgi, hslot, hinp, hbl,
                          blocksGet?_blocksSet_ne _ i idx _ hii]
                      · cases hp : p s with
                        | none =>
                          simp [handleSSEEvent, htr, h1, h2, h3, h4, hgi, hslot, hinp, hbl, hp]
                        | some v =>
                          simp [handleSSEEvent, htr, h1, h2, h3, h4, hgi, hslot, hinp, hbl, hp,
                            blocksGet?_blocksSet_ne _ i idx _ hii]
                    | _ => simp [handleSSEEvent, htr, h1, h2, h3, h4, hgi, hslot, hinp]
          · by_cases h5 : ty = "message_delta"
            · left; simp [handleSSEEvent, htr, h1, h2, h3, h4, h5]
            · left; simp [handleSSEEvent, htr, h1, h2, h3, h4, h5]

/-- The slot invariant before the distinguished text delta: either no
block yet, or a text-typed block whose `text` is absent or a string. -/
def preSlotOK : Option Json → Prop
  | none => True
  | some (Json.obj o) =>
    o.get? "type" = some (.str "text") ∧
      (o.get? "text" = none ∨ ∃ t, o.get? "text" = some (.str t))
  | some _ => False

/-- The slot invariant after the distinguished text delta: a text-typed
block whose `text` is a string containing `s`. -/
def textSlotOK (s : String) : Option Json → Prop
  | some (Json.obj o) =>
    o.get? "type" = some (.str "text") ∧
      ∃ t, o.get? "text" = some (.str t) ∧ strContains t s = true
  | _ => False

theorem jsConcatAppend_str_any (t : String) (x : Option Json) :
    jsConcatAppend (some (.str t)) x = .str (t ++ jsToStringOpt x) := by
  simp [jsConcatAppend, jsOrEmptyStr_str, jsToString]

theorem jsConcatAppend_none (x : Option Json) :
    jsConcatAppend none x = .str (jsToStringOpt x) := by
  simp [jsConcatAppend, jsOrEmptyStr, jsToString]

theorem isDeltaAt_decomp (idx : Int) (e : SSEEvent) (h : isDeltaAt idx e = true) :
    e.type = "content_block_delta" ∧ ∃ d, e.data = some d ∧ getIndex? d = some idx := by
  obtain ⟨ty, dt⟩ := e
  cases dt with
  | none => simp [isDeltaAt, eventIndex?] at h
  | some d =>
    simp only [isDeltaAt, eventIndex?, Bool.and_eq_true, decide_eq_true_eq] at h
    exact ⟨h.1, d, rfl, h.2⟩

theorem textSlot_of_set_other (s : String) (o : JsonObj) (k : String) (v : Json)
    (h1 : ¬ k = "type") (h2 : ¬ k = "text")
    (h : textSlotOK s (some (Json.obj o))) :
    textSlotOK s (some (Json.obj (o.set k v))) := by
  obtain ⟨hty, t, htx, hc⟩ := h
  refine ⟨?_, t, ?_, hc⟩
  · rw [JsonObj.get?_set_ne o k "type" v h1]
    exact hty
  · rw [JsonObj.get?_set_ne o k "text" v h2]
    exact htx

theorem textSlot_preserved (p : String → Option Json) (st : DecodeState) (e : SSEEvent)
    (idx : Int) (s : String) (hstart : isStartAt idx e = false)
    (h : textSlotOK s (blocksGet? st.contentBlocks idx)) :
    textSlotOK s (blocksGet? (handleSSEEvent p st e).contentBlocks idx) := by
  by_cases hdel : isDeltaAt idx e = true
  · obtain ⟨hty, d, hdt, hidx⟩ := isDeltaAt_decomp idx e hdel
    obtain ⟨ty, dt⟩ := e
    simp only at hty hdt
    subst hty hdt
    rw [slot_after_delta p st d idx hidx]
    cases hslot : blocksGet? st.contentBlocks idx with
    | none => rw [hslot] at h; exact h.elim
    | some b =>
      rw [hslot] at h
      cases b with
      | obj o =>
        obtain ⟨hty2, t, htx, hc⟩ := h
        have hgt : (Json.obj o).get? "text" = some (.str t) := htx
        simp only [Option.getD_some, deltaApply]
        split_ifs with k1 k2 k3 k4
        · rw [hgt, jsConcatAppend_str_any]
          show textSlotOK s (some (Json.obj (o.set "text" _)))
          refine ⟨?_, t ++ jsToStringOpt (((d.get? "delta").getD Json.null).get? "text"),
            ?_, ?_⟩
          · rw [JsonObj.get?_set_ne o "text" "type" _ (by decide)]
            exact hty2
          · exact JsonObj.get?_set_self o "text" _
          · exact strContains_append_right t _ s hc
        · exact textSlot_of_set_other s o "thinking" _ (by decide) (by decide)
            ⟨hty2, t, htx, hc⟩
        · rw [Json.setField_setField]
          exact textSlot_of_set_other s o "input" _ (by decide) (by decide)
            ⟨hty2, t, htx, hc⟩
        · exact textSlot_of_set_other s o "input" _ (by decide) (by decide)
            ⟨hty2, t, htx, hc⟩
        · exact ⟨hty2, t, htx, hc⟩
      | null => exact h.elim
      | bool b => exact h.elim
      | num n => exact h.elim
      | str s2 => exact h.elim
      | arr es => exact h.elim
  · rcases slot_after_handle p st e idx hstart (by simpa using hdel) with heq | ⟨o, v, ho, ho'⟩
    · rw [heq]
      exact h
    · rw [ho']
      rw [ho] at h
      exact textSlot_of_set_other s o "input" v (by decide) (by decide) h

theorem preSlot_of_set_other (o : JsonObj) (k : String) (v : Json)
    (h1 : ¬ k = "type") (h2 : ¬ k = "text")
    (h : preSlotOK (some (Json.obj o))) :
    preSlotOK (some (Json.obj (o.set k v))) := by
  obtain ⟨hty, htx⟩ := h
  refine ⟨?_, ?_⟩
  · rw [JsonObj.get?_set_ne o k "type" v h1]
    exact hty
  · rw [JsonObj.get?_set_ne o k "text" v h2]
    exact htx

theorem preSlot_preserved (p : String → Option Json) (st : DecodeState) (e : SSEEvent)
    (idx : Int) (hstart : isStartAt idx e = false)
    (hkind : isDeltaAt idx e = false ∨ eventDeltaKind e = "text_delta")
    (h : preSlotOK (blocksGet? st.contentBlocks idx)) :
    preSlotOK (blocksGet? (handleSSEEvent p st e).contentBlocks idx) := by
  by_cases hdel : isDeltaAt idx e = true
  · have hkd : eventDeltaKind e = "text_delta" := by
      rcases hkind with hk | hk
      · rw [hdel] at hk; exact absurd hk (by simp)
      · exact hk
    obtain ⟨hty, d, hdt, hidx⟩ := isDeltaAt_decomp idx e hdel
    obtain ⟨ty, dt⟩ := e
    simp only at hty hdt
    subst hty hdt
    simp only [eventDeltaKind] at hkd
    rw [slot_after_delta p st d idx hidx]
    cases hslot : blocksGet? st.contentBlocks idx with
    | none =>
      have hfresh : strReplaceFirst "text_delta" "_delta" "" = "text" := by decide
      simp only [Option.getD_none, deltaApply, hkd, hfresh, if_true]
      have hone : (jobj [("type", Json.str "text")]).get? "text" = none := by
        simp [jobj, JsonObj.ofList, Json.get?, JsonObj.get?]
      rw [hone, jsConcatAppend_none]
      refine ⟨?_, Or.inr ⟨jsToStringOpt (((d.get? "delta").getD Json.null).get? "text"), ?_⟩⟩
      · show ((JsonObj.ofList [("type", Json.str "text")]).set "text" _).get? "type" = _
        rw [JsonObj.get?_set_ne _ "text" "type" _ (by decide)]
        simp [JsonObj.ofList, JsonObj.get?]
      · exact JsonObj.get?_set_self _ "text" _
    | some b =>
      rw [hslot] at h
      cases b with
      | obj o =>
        obtain ⟨hty2, htx⟩ := h
        simp only [Option.getD_some, deltaApply, hkd, if_true]
        rcases htx with htx | ⟨t, htx⟩
        · have hgt : (Json.obj o).get? "text" = none := htx
          rw [hgt, jsConcatAppend_none]
          refine ⟨?_, Or.inr ⟨jsToStringOpt (((d.get? "delta").getD Json.null).get? "text"), ?_⟩⟩
          · show (o.set "text" _).get? "type" = _
            rw [JsonObj.get?_set_ne o "text" "type" _ (by decide)]
            exact hty2
          · exact JsonObj.get?_set_self o "text" _
        · have hgt : (Json.obj o).get? "text" = some (.str t) := htx
          rw [hgt, jsConcatAppend_str_any]
          refine ⟨?_, Or.inr ⟨t ++ jsToStringOpt (((d.get? "delta").getD Json.null).get? "text"), ?_⟩⟩
          · show (o.set "text" _).get? "type" = _
            rw [JsonObj.get?_set_ne o "text" "type" _ (by decide)]
            exact hty2
          · exact JsonObj.get?_set_self o "text" _
      | null => exact h.elim
      | bool b => exact h.elim
      | num n => exact h.elim
      | str s2 => exact h.elim
      | arr es => exact h.elim
  · rcases slot_after_handle p st e idx hstart (by simpa using hdel) with heq | ⟨o, v, ho, ho'⟩
    · rw [heq]
      exact h
    · rw [ho']
      rw [ho] at h
      exact preSlot_of_set_other o "input" v (by decide) (by decide) h

theorem textDelta_establish (p : String → Option Json) (st : DecodeState)
    (idx : Int) (s : String)
    (h : preSlotOK (blocksGet? st.contentBlocks idx)) :
    textSlotOK s (blocksGet? (handleSSEEvent p st (textDeltaEvent idx s)).contentBlocks idx) := by
  have hidx : getIndex? (jobj [("index", .num idx),
      ("delta", jobj [("type", .str "text_delta"), ("text", .str s)])]) = some idx :=
    getIndex?_jobj_index idx _
  have hdl : ((jobj [("index", .num idx),
      ("delta", jobj [("type", .str "text_delta"), ("text", .str s)])]).get? "delta").getD
        Json.null
      = jobj [("type", .str "text_delta"), ("text", .str s)] := by
    simp [jobj, JsonObj.ofList, Json.get?, JsonObj.get?]
  have hkd : deltaKind (jobj [("type", .str "text_delta"), ("text", .str s)])
      = "text_delta" := by
    simp [deltaKind, jobj, JsonObj.ofList, Json.get?, JsonObj.get?]
  have htx : (jobj [("type", .str "text_delta"), ("text", .str s)]).get? "text"
      = some (.str s) := by
    simp [jobj, JsonObj.ofList, Json.get?, JsonObj.get?]
  show textSlotOK s (blocksGet?
    (handleSSEEvent p st ⟨"content_block_delta", some (jobj [("index", .num idx),
      ("delta", jobj [("type", .str "text_delta"), ("text", .str s)])])⟩).contentBlocks idx)
  rw [slot_after_delta p st _ idx hidx, hdl, hkd]
  have hfresh : strReplaceFirst "text_delta" "_delta" "" = "text" := by decide
  cases hslot : blocksGet? st.contentBlocks idx with
  | none =>
    simp only [Option.getD_none, deltaApply, hkd, hfresh, if_true, htx]
    have hone : (jobj [("type", Json.str "text")]).get? "text" = none := by
      simp [jobj, JsonObj.ofList, Json.get?, JsonObj.get?]
    rw [hone, jsConcatAppend_none]
    have hjs : jsToStringOpt (some (Json.str s)) = s := by simp [jsToStringOpt, jsToString]
    rw [hjs]
    refine ⟨?_, s, ?_, ?_⟩
    · show ((JsonObj.ofList [("type", Json.str "text")]).set "text" _).get? "type" = _
      rw [JsonObj.get?_set_ne _ "text" "type" _ (by decide)]
      simp [JsonObj.ofList, JsonObj.get?]
    · exact JsonObj.get?_set_self _ "text" _
    · exact strContains_self s
  | some b =>
    rw [hslot] at h
    cases b with
    | obj o =>
      obtain ⟨hty2, htx2⟩ := h
      simp only [Option.getD_some, deltaApply, hkd, if_true, htx]
      rcases htx2 with htx2 | ⟨t, htx2⟩
      · have hgt : (Json.obj o).get? "text" = none := htx2
        rw [hgt, jsConcatAppend_none]
        have hjs : jsToStringOpt (some (Json.str s)) = s := by simp [jsToStringOpt, jsToString]
        rw [hjs]
        refine ⟨?_, s, ?_, ?_⟩
        · show (o.set "text" _).get? "type" = _
          rw [JsonObj.get?_set_ne o "text" "type" _ (by decide)]
          exact hty2
        · exact JsonObj.get?_set_self o "text" _
        · exact strContains_self s
      · have hgt : (Json.obj o).get? "text" = some (.str t) := htx2
        rw [hgt, jsConcatAppend_str_any]
        have hjs : jsToStringOpt (some (Json.str s)) = s := by simp [jsToStringOpt, jsToString]
        rw [hjs]
        refine ⟨?_, t ++ s, ?_, ?_⟩
        · show (o.set "text" _).get? "type" = _
          rw [JsonObj.get?_set_ne o "text" "type" _ (by decide)]
          exact hty2
        · exact JsonObj.get?_set_self o "text" _
        · exact strContains_append_left t s
    | null => exact h.elim
    | bool b2 => exact h.elim
    | num n => exact h.elim
    | str s2 => exact h.elim
    | arr es => exact h.elim

theorem foldl_preSlot (p : String → Option Json) (idx : Int) :
    ∀ (evs : List SSEEvent) (st : DecodeState),
      (∀ e ∈ evs, isStartAt idx e = false ∧
        (isDeltaAt idx e = false ∨ eventDeltaKind e = "text_delta")) →
      preSlotOK (blocksGet? st.contentBlocks idx) →
      preSlotOK (blocksGet? ((evs.foldl (handleSSEEvent p) st)).contentBlocks idx)
  | [], st, _, h => h
  | e :: rest, st, hall, h => by
    rw [List.foldl_cons]
    exact foldl_preSlot p idx rest _ (fun e' he' => hall e' (by simp [he']))
      (preSlot_preserved p st e idx (hall e (by simp)).1 (hall e (by simp)).2 h)

theorem foldl_textSlot (p : String → Option Json) (idx : Int) (s : String) :
    ∀ (evs : List SSEEvent) (st : DecodeState),
      (∀ e ∈ evs, isStartAt idx e = false) →
      textSlotOK s (blocksGet? st.contentBlocks idx) →
      textSlotOK s (blocksGet? ((evs.foldl (handleSSEEvent p) st)).contentBlocks idx)
  | [], st, _, h => h
  | e :: rest, st, hall, h => by
    rw [List.foldl_cons]
    exact foldl_textSlot p idx s rest _ (fun e' he' => hall e' (by simp [he']))
      (textSlot_preserved p st e idx s (hall e (by simp)) h)

theorem message_obj_after_handle (p : String → Option Json) (st : DecodeState)
    (e : SSEEvent) (h : ∃ mo, st.message = Json.obj mo) :
    ∃ mo', (handleSSEEvent p st e).message = Json.obj mo' := by
  obtain ⟨mo, hmo⟩ := h
  obtain ⟨ty, dt⟩ := e
  cases dt with
  | none => exact ⟨mo, hmo⟩
  | some d =>
    by_cases htr : jsTruthy d
    case neg => simp [handleSSEEvent, htr]; exact ⟨mo, hmo⟩
    case pos =>
    by_cases h1 : ty = "message_start"
    · subst h1
      simp only [handleSSEEvent]
      simp [htr]
      rw [hmo]
      exact ⟨_, rfl⟩
    · by_cases h2 : ty = "content_block_start"
      · cases hgi : getIndex? d with
        | none => simp [handleSSEEvent, htr, h1, h2, hgi]; exact ⟨mo, hmo⟩
        | some i => simp [handleSSEEvent, htr, h1, h2, hgi]; exact ⟨mo, hmo⟩
      · by_cases h3 : ty = "content_block_delta"
        · cases hgi : getIndex? d with
          | none => simp [handleSSEEvent, htr, h1, h2, h3, hgi]; exact ⟨mo, hmo⟩
          | some i =>
            cases hslot : blocksGet? st.contentBlocks i with
            | none => simp [handleSSEEvent, htr, h1, h2, h3, hgi, hslot]; exact ⟨mo, hmo⟩
            | some b => simp [handleSSEEvent, htr, h1, h2, h3, hgi, hslot]; exact ⟨mo, hmo⟩
        · by_cases h4 : ty = "content_block_stop"
          · cases hgi : getIndex? d with
            | none => simp [handleSSEEvent, htr, h1, h2, h3, h4, hgi]; exact ⟨mo, hmo⟩
            | some i =>
              cases hslot : blocksGet? st.contentBlocks i with
              | none => simp [handleSSEEvent, htr, h1, h2, h3, h4, hgi, hslot]; exact ⟨mo, hmo⟩
              | some b =>
                cases hinp : b.get? "input" with
                | none =>
                  simp [handleSSEEvent, htr, h1, h2, h3, h4, hgi, hslot, hinp]
                  exact ⟨mo, hmo⟩
                | some w =>
                  cases w with
                  | str s =>
                    by_cases hbl : jsIsBlank s
                    · simp [handleSSEEvent, htr, h1, h2, h3, h4, hgi, hslot, hinp, hbl]
                      exact ⟨mo, hmo⟩
                    · cases hp : p s with
                      | none =>
                        simp [handleSSEEvent, htr, h1, h2, h3, h4, hgi, hslot, hinp, hbl, hp]
                        exact ⟨mo, hmo⟩
                      | some v =>
                        simp [handleSSEEvent, htr, h1, h2, h3, h4, hgi, hslot, hinp, hbl, hp]
                        exact ⟨mo, hmo⟩
                  | null =>
                    simp [handleSSEEvent, htr, h1, h2, h3, h4, hgi, hslot, hinp]
                    exact ⟨mo, hmo⟩
                  | bool b2 =>
                    simp [handleSSEEvent, htr, h1, h2, h3, h4, hgi, hslot, hinp]
                    exact ⟨mo, hmo⟩
                  | num n =>
                    simp [handleSSEEvent, htr, h1, h2, h3, h4, hgi, hslot, hinp]
                    exact ⟨mo, hmo⟩
                  | arr es =>
                    simp [handleSSEEvent, htr, h1, h2, h3, h4, hgi, hslot, hinp]
                    exact ⟨mo, hmo⟩
                  | obj o2 =>
                    simp [handleSSEEvent, htr, h1, h2, h3, h4, hgi, hslot, hinp]
                    exact ⟨mo, hmo⟩
          · by_cases h5 : ty = "message_delta"
            · subst h5
              simp only [handleSSEEvent]
              simp [htr]
              split_ifs <;> (rw [hmo]; exact ⟨_, rfl⟩)
            · simp [handleSSEEvent, htr, h1, h2, h3, h4, h5]; exact ⟨mo, hmo⟩

theorem foldl_message_obj (p : String → Option Json) :
    ∀ (evs : List SSEEvent) (st : DecodeState),
      (∃ mo, st.message = Json.obj mo) →
      ∃ mo', ((evs.foldl (handleSSEEvent p) st)).message = Json.obj mo'
  | [], st, h => h
  | e :: rest, st, h => by
    rw [List.foldl_cons]
    exact foldl_message_obj p rest _ (message_obj_after_handle p st e h)

theorem mergeSSEEvents_content (p : String → Option Json) (evs : List SSEEvent) :
    (mergeSSEEvents p evs).get? "content"
      = some (jarr ((((decodeBlocks p evs).map Prod.fst).insertionSort (· ≤ ·)).filterMap
          (blocksGet? (decodeBlocks p evs)))) := by
  obtain ⟨mo, hmo⟩ := foldl_message_obj p evs ⟨initSSEMessage, []⟩
    ⟨JsonObj.ofList [("model", .str ""), ("id", .str ""), ("type", .str "message"),
      ("role", .str "assistant"), ("content", jarr []),
      ("stop_reason", .null), ("stop_sequence", .null), ("usage", jobj [])], rfl⟩
  unfold mergeSSEEvents sseFinalize decodeBlocks
  rw [hmo]
  show (Json.obj (mo.set "content" _)).get? "content" = _
  rw [Json.get?, JsonObj.get?_set_self]

theorem JsonList.toList_ofList : ∀ l : List Json, (JsonList.ofList l).toList = l
  | [] => rfl
  | h :: t => by simp [JsonList.ofList, JsonList.toList, JsonList.toList_ofList t]

theorem getArr_jarr (l : List Json) : getArr (jarr l) = l := by
  simp [getArr, jarr, JsonList.toList_ofList]

/-- C8 (amended): a `text_delta` at an index with no prior
`content_block_start` never makes decoding fail; provided no
`content_block_start` at that index occurs anywhere in the stream and no
delta of a different kind at that index precedes it, the decoder produces
a block at that index whose `type` is `text` and whose `text` contains
the delta's text, and that block appears in the final `content` array. -/
theorem parseSSE_textDelta_no_start (p : String → Option Json)
    (pre post : List SSEEvent) (idx : Int) (s : String)
    (h1 : ∀ e ∈ pre, isStartAt idx e = false ∧
      (isDeltaAt idx e = false ∨ eventDeltaKind e = "text_delta"))
    (h2 : ∀ e ∈ post, isStartAt idx e = false) :
    ∃ o : JsonObj,
      blocksGet? (decodeBlocks p (pre ++ textDeltaEvent idx s :: post)) idx
          = some (Json.obj o) ∧
      o.get? "type" = some (.str "text") ∧
      (∃ t, o.get? "text" = some (.str t) ∧ strContains t s = true) ∧
      Json.obj o ∈ getArr
        (((mergeSSEEvents p (pre ++ textDeltaEvent idx s :: post)).get? "content").getD
          Json.null) := by
  have hslots : textSlotOK s (blocksGet?
      (decodeBlocks p (pre ++ textDeltaEvent idx s :: post)) idx) := by
    unfold decodeBlocks
    rw [List.foldl_append, List.foldl_cons]
    refine foldl_textSlot p idx s post _ h2 ?_
    refine textDelta_establish p _ idx s ?_
    refine foldl_preSlot p idx pre ⟨initSSEMessage, []⟩ h1 ?_
    show preSlotOK none
    trivial
  cases hslot : blocksGet? (decodeBlocks p (pre ++ textDeltaEvent idx s :: post)) idx with
  | none => rw [hslot] at hslots; exact hslots.elim
  | some b =>
    rw [hslot] at hslots
    cases b with
    | obj o =>
      obtain ⟨hty, t, htx, hc⟩ := hslots
      refine ⟨o, rfl, hty, ⟨t, htx, hc⟩, ?_⟩
      rw [mergeSSEEvents_content p (pre ++ textDeltaEvent idx s :: post)]
      rw [Option.getD_some, getArr_jarr]
      refine List.mem_filterMap.mpr ⟨idx, ?_, hslot⟩
      rw [List.mem_insertionSort]
      exact mem_fst_of_blocksGet? _ idx _ hslot
    | null => exact hslots.elim
    | bool b2 => exact hslots.elim
    | num n => exact hslots.elim
    | str s2 => exact hslots.elim
    | arr es => exact hslots.elim

/-- Counterexample to C8 as stated. First stream: the text delta at
index 0 has no prior `content_block_start`, yet a later start at the same
index replaces the block, so the final text block does not contain the
delta text. Second stream: a prior `thinking_delta` at the index makes
the block's type `thinking`, not `text`, though it has no prior start
either. -/
theorem parseSSE_textDelta_no_start_counterexample :
    (mergeSSEEvents (fun _ => none)
        [textDeltaEvent 0 "hi",
         blockStartEvent 0 (jobj [("type", .str "text"), ("text", .str "")])]).get? "content"
      = some (jarr [jobj [("type", .str "text"), ("text", .str "")]]) ∧
    strContains "" "hi" = false ∧
    (mergeSSEEvents (fun _ => none)
        [thinkingDeltaEvent 0 "a", textDeltaEvent 0 "hi"]).get? "content"
      = some (jarr [jobj [("type", .str "thinking"), ("thinking", .str "a"),
          ("text", .str "hi")]]) := by
  refine ⟨?_, ?_, ?_⟩ <;> decide

/-- Witness for C8 (amended): a lone text delta surrounded by unrelated
events still yields a text block containing the delta text. -/
theorem parseSSE_textDelta_no_start_witness :
    ∃ o : JsonObj,
      blocksGet? (decodeBlocks (fun _ => none)
          ([⟨"message_start", none⟩] ++ textDeltaEvent 0 "hi" :: [blockStopEvent 0])) 0
          = some (Json.obj o) ∧
      o.get? "type" = some (.str "text") ∧
      (∃ t, o.get? "text" = some (.str t) ∧ strContains t "hi" = true) ∧
      Json.obj o ∈ getArr
        (((mergeSSEEvents (fun _ => none)
            ([⟨"message_start", none⟩] ++ textDeltaEvent 0 "hi" :: [blockStopEvent 0])).get?
          "content").getD Json.null) :=
  parseSSE_textDelta_no_start (fun _ => none) [⟨"message_start", none⟩] [blockStopEvent 0]
    0 "hi" (by decide) (by decide)

/-- The flattening rule exactly as the spec states it (for comparison
with the source): per message, a list content contributes one hash per
element and any other content one hash as a single unit. -/
def claimHashSequence (trace : Trace) : List String :=
  if trace.type = "request" then
    ((sysHashItems trace).map (fun item => simpleHash (jsonStringify item)))
      ++ ((toolItemsOf trace).map (fun tool => simpleHash (jsonStringify tool)))
      ++ ((messagesOf trace).flatMap (fun msg =>
            if isArr (msgContent msg) then getArr (msgContent msg)
            else [msgContent msg])).map (fun c => simpleHash (getHashableContent c))
  else []

/-- The pieces one message contributes, with the empty-list correction:
only a non-empty list is flattened element-wise; an empty list is hashed
as a single unit like a scalar. -/
def claimMessagePieces (msg : Json) : List Json :=
  if isArr (msgContent msg) ∧ (getArr (msgContent msg)).length > 0 then
    getArr (msgContent msg)
  else [msgContent msg]

/-- The flattening rule as amended: system entries, tool definitions,
then the per-message pieces, where only non-empty list contents are
flattened element-wise. -/
def claimHashSequenceAmended (trace : Trace) : List String :=
  if trace.type = "request" then
    ((sysHashItems trace).map (fun item => simpleHash (jsonStringify item)))
      ++ ((toolItemsOf trace).map (fun tool => simpleHash (jsonStringify tool)))
      ++ ((messagesOf trace).flatMap claimMessagePieces).map
          (fun c => simpleHash (getHashableContent c))
  else []

/-- A request trace with one message whose content is the empty list. -/
def emptyContentTrace : Trace :=
  ⟨0, "request", jobj [("messages", jarr [jobj [("role", .str "user"),
    ("content", jarr [])]])]⟩

/-- Counterexample to C5 as stated: a message whose content is the empty
list contributes one hash (of the serialized empty array) in the source,
but zero hashes under the claim's per-element rule. -/
theorem generateBlockHashSequence_claim_counterexample :
    (generateBlockHashSequence emptyContentTrace).length = 1 ∧
    (claimHashSequence emptyContentTrace).length = 0 ∧
    generateBlockHashSequence emptyContentTrace ≠ claimHashSequence emptyContentTrace := by
  refine ⟨?_, ?_, ?_⟩ <;> decide

/-- C5 (amended): the flattened hash sequence is, in order, one hash per
system entry, one per tool definition, then per message one hash per
content element for non-empty list contents, and one hash for the content
as a single unit otherwise. -/
theorem generateBlockHashSequence_flattening (trace : Trace) :
    generateBlockHashSequence trace = claimHashSequenceAmended trace := by
  unfold generateBlockHashSequence claimHashSequenceAmended claimMessagePieces
  by_cases h : trace.type = "request"
  · simp only [h, if_true, ite_not, if_neg]
    rw [List.map_flatMap]
    congr 1
    congr 1
    funext msg
    by_cases hm : msgIsSplit msg
    · have hm' : isArr (msgContent msg) ∧ (getArr (msgContent msg)).length > 0 := by
        simpa [msgIsSplit] using hm
      simp [hm, hm']
    · have hm' : ¬ (isArr (msgContent msg) ∧ (getArr (msgContent msg)).length > 0) := by
        simpa [msgIsSplit] using hm
      simp [hm, hm']
  · simp [h]

theorem countMatchingPrefixBlocks_eq : ∀ (k : Nat) (ph ch : List String),
    ph.take k = ch.take k → k < ph.length → k < ch.length →
    ph.get? k ≠ ch.get? k → countMatchingPrefixBlocks ph ch = k
  | 0, ph, ch, _, hp, hc, hne => by
    match ph, ch with
    | [], _ => simp at hp
    | _ :: _, [] => simp at hc
    | a :: ph', b :: ch' =>
      have hab : a ≠ b := by simpa using hne
      simp [countMatchingPrefixBlocks, hab]
  | k + 1, ph, ch, htake, hp, hc, hne => by
    match ph, ch with
    | [], _ => simp at hp
    | _ :: _, [] => simp at hc
    | a :: ph', b :: ch' =>
      rw [List.take_succ_cons, List.take_succ_cons] at htake
      have hab' : a = b := by
        have := congrArg (fun l => l.head?) htake
        simpa using this
      have ht' : ph'.take k = ch'.take k := by
        have := congrArg (fun l => l.tail) htake
        simpa using this
      have hrec := countMatchingPrefixBlocks_eq k ph' ch' ht'
        (by simpa using hp) (by simpa using hc) (by simpa using hne)
      simp [countMatchingPrefixBlocks, hab', hrec]

theorem generate_eq_items_map (trace : Trace) (h : trace.type = "request") :
    generateBlockHashSequence trace = (requestBlockItems trace).map rblockHash := by
  unfold generateBlockHashSequence requestBlockItems
  simp only [h, ite_not, if_pos rfl, reduceCtorEq, if_true]
  rw [List.map_append, List.map_append, List.map_map, List.map_map, List.map_flatMap]
  have e1 : (rblockHash ∘ RBlock.sys) = fun item => simpleHash (jsonStringify item) := by
    funext item
    simp [rblockHash]
  have e2 : (rblockHash ∘ RBlock.tool) = fun tool => simpleHash (jsonStringify tool) := by
    funext tool
    simp [rblockHash]
  rw [e1, e2]
  congr 1
  congr 1
  funext msg
  by_cases hm : msgIsSplit msg <;>
    simp [hm, rblockHash, List.map_map, Function.comp]

theorem renderBlockInfos_eq (allTraces : List Trace) (traceLevels : List String)
    (currentLevel : String) (traceIdx : Nat) (trace : Trace)
    (htr : allTraces.get? traceIdx = some trace) (hreq : trace.type = "request") :
    renderBlockInfos allTraces traceLevels currentLevel traceIdx
      = (requestBlockItems trace).enum.map
          (fun q => ⟨decide (q.1 <
              continuedBlockCount allTraces traceLevels currentLevel traceIdx trace),
            rblockSecondary (previousResponseHashes allTraces traceIdx)
              (previousResponseToolUseIds allTraces traceIdx) q.2⟩) := by
  unfold renderBlockInfos
  have htr' : allTraces[traceIdx]? = some trace := by
    rw [← List.get?_eq_getElem?]
    exact htr
  simp [htr', hreq]

theorem enum_map_get? {β : Type} (l : List RBlock) (f : Nat × RBlock → β) (i : Nat) :
    (l.enum.map f).get? i = (l.get? i).map (fun it => f (i, it)) := by
  simp only [List.get?_eq_getElem?, List.getElem?_map, List.getElem?_enum]
  cases l[i]? <;> rfl

/-- C2 (amended): when the selected predecessor's and the current
request's hash sequences agree on exactly the first `k` elements with
`k` above the system-block count, every block before position `k` is
marked continued, and no block from position `k` onwards is marked by the
prefix signal — such a block is continued exactly when the secondary
response-echo signal marks it. -/
theorem renderBlocks_prefix_continuation
    (allTraces : List Trace) (traceLevels : List String) (currentLevel : String)
    (traceIdx : Nat) (trace prev : Trace) (k : Nat)
    (htr : allTraces.get? traceIdx = some trace)
    (hreq : trace.type = "request")
    (hcmp : findCompareWith allTraces traceLevels currentLevel traceIdx = some prev)
    (htake : (generateBlockHashSequence prev).take k
      = (generateBlockHashSequence trace).take k)
    (hkp : k < (generateBlockHashSequence prev).length)
    (hkc : k < (generateBlockHashSequence trace).length)
    (hne : (generateBlockHashSequence prev).get? k
      ≠ (generateBlockHashSequence trace).get? k)
    (hsys : systemBlockCount trace < k) :
    (renderBlockInfos allTraces traceLevels currentLevel traceIdx).length
        = (generateBlockHashSequence trace).length ∧
    (∀ i, i < k →
      ((renderBlockInfos allTraces traceLevels currentLevel traceIdx).get? i).map
        BlockInfo.isContinued = some true) ∧
    (∀ i, k ≤ i →
      ((renderBlockInfos allTraces traceLevels currentLevel traceIdx).get? i).map
          BlockInfo.fromPrefix ≠ some true ∧
      ((renderBlockInfos allTraces traceLevels currentLevel traceIdx).get? i).map
          BlockInfo.isContinued
        = ((renderBlockInfos allTraces traceLevels currentLevel traceIdx).get? i).map
            BlockInfo.fromResponse) := by
  have hcnt : continuedBlockCount allTraces traceLevels currentLevel traceIdx trace = k := by
    unfold continuedBlockCount
    rw [hcmp]
    simp only [countMatchingPrefixBlocks_eq k _ _ htake hkp hkc hne]
    simp [hsys]
  have hlen : (requestBlockItems trace).length = (generateBlockHashSequence trace).length := by
    rw [generate_eq_items_map trace hreq, List.length_map]
  rw [renderBlockInfos_eq allTraces traceLevels currentLevel traceIdx trace htr hreq, hcnt]
  refine ⟨?_, ?_, ?_⟩
  · rw [List.length_map, List.enum_length, hlen]
  · intro i hi
    rw [enum_map_get?]
    have hii : i < (requestBlockItems trace).length := by omega
    obtain ⟨it, hit⟩ : ∃ it, (requestBlockItems trace).get? i = some it := by
      rw [List.get?_eq_getElem?]
      exact ⟨_, List.getElem?_eq_getElem hii⟩
    rw [hit]
    simp [BlockInfo.isContinued, hi]
  · intro i hik
    rw [enum_map_get?]
    have hnk : ¬ i < k := by omega
    cases hit : (requestBlockItems trace).get? i with
    | none => simp
    | some it =>
      constructor
      · simp [hnk]
      · simp [BlockInfo.isContinued, hnk]

/-- A response trace whose text is later echoed by a request block. -/
def c2RespTrace : Trace :=
  ⟨0, "response", jobj [("content", jarr [jobj [("type", .str "text"),
    ("text", .str "ECHO")]])]⟩

/-- The predecessor request: system `S`, one user message with two text
items `A`, `X`. -/
def c2PrevTrace : Trace :=
  ⟨1, "request", jobj [("system", .str "S"), ("messages", jarr [jobj
    [("role", .str "user"), ("content", jarr
      [jobj [("type", .str "text"), ("text", .str "A")],
       jobj [("type", .str "text"), ("text", .str "X")]])]])]⟩

/-- The current request: system `S`, text items `A`, `Y`, `ECHO` — it
shares exactly two leading hashes with the predecessor and echoes the
earlier response at position 3. -/
def c2CurTrace : Trace :=
  ⟨2, "request", jobj [("system", .str "S"), ("messages", jarr [jobj
    [("role", .str "user"), ("content", jarr
      [jobj [("type", .str "text"), ("text", .str "A")],
       jobj [("type", .str "text"), ("text", .str "Y")],
       jobj [("type", .str "text"), ("text", .str "ECHO")]])]])]⟩

/-- The example trace list and levels for the continuation scenarios. -/
def c2AllTraces : List Trace := [c2RespTrace, c2PrevTrace, c2CurTrace]

/-- All three traces sit in the `main` lane. -/
def c2Levels : List String := ["main", "main", "main"]

/-- Counterexample to C2 as stated: the hash sequences share exactly
`k = 2` leading elements with `k ≥ system count + 1` and differ at
position 2, yet the block at position 3 is still marked continued,
because it echoes an earlier response (secondary signal). -/
theorem renderBlocks_prefix_c2_counterexample :
    findCompareWith c2AllTraces c2Levels "main" 2 = some c2PrevTrace ∧
    (generateBlockHashSequence c2PrevTrace).take 2
      = (generateBlockHashSequence c2CurTrace).take 2 ∧
    (generateBlockHashSequence c2PrevTrace).get? 2
      ≠ (generateBlockHashSequence c2CurTrace).get? 2 ∧
    systemBlockCount c2CurTrace + 1 ≤ 2 ∧
    ((renderBlockInfos c2AllTraces c2Levels "main" 2).get? 3).map BlockInfo.isContinued
      = some true := by
  refine ⟨?_, ?_, ?_, ?_, ?_⟩ <;> decide

/-- Witness for C2 (amended) on the concrete scenario: block 1 (inside
the matched prefix) is continued and block 2 (at the mismatch) is not
marked by the prefix signal. -/
theorem renderBlocks_prefix_continuation_witness :
    ((renderBlockInfos c2AllTraces c2Levels "main" 2).get? 1).map BlockInfo.isContinued
        = some true ∧
    ((renderBlockInfos c2AllTraces c2Levels "main" 2).get? 2).map BlockInfo.fromPrefix
        ≠ some true :=
  have h := renderBlocks_prefix_continuation c2AllTraces c2Levels "main" 2
    c2CurTrace c2PrevTrace 2 (by decide) (by decide) (by decide) (by decide)
    (by decide) (by decide) (by decide) (by decide)
  ⟨h.2.1 1 (by decide), (h.2.2 2 (by decide)).1⟩

theorem mem_prevHashes_iff (allTraces : List Trace) (traceIdx : Nat) (h : String) :
    h ∈ previousResponseHashes allTraces traceIdx
    ↔ ∃ item, item ∈ previousResponseItems allTraces traceIdx ∧
        isResponseIdItem item = false ∧ simpleHash (getHashableContent item) = h := by
  unfold previousResponseHashes
  rw [List.mem_filterMap]
  constructor
  · rintro ⟨a, ha, hfa⟩
    by_cases hid : isResponseIdItem a
    · simp [hid] at hfa
    · simp only [hid, if_false, Option.some_inj, Bool.false_eq_true] at hfa
      exact ⟨a, ha, by simpa using hid, hfa⟩
  · rintro ⟨a, ha, hid, hh⟩
    exact ⟨a, ha, by simp [hid, hh]⟩

theorem mem_prevIds_iff (allTraces : List Trace) (traceIdx : Nat) (x : Json) :
    x ∈ previousResponseToolUseIds allTraces traceIdx
    ↔ ∃ item, item ∈ previousResponseItems allTraces traceIdx ∧
        isResponseIdItem item = true ∧ (item.get? "id").getD Json.null = x := by
  unfold previousResponseToolUseIds
  rw [List.mem_filterMap]
  constructor
  · rintro ⟨a, ha, hfa⟩
    by_cases hid : isResponseIdItem a
    · simp only [hid, if_true, Option.some_inj] at hfa
      exact ⟨a, ha, hid, hfa⟩
    · simp [hid] at hfa
  · rintro ⟨a, ha, hid, hh⟩
    exact ⟨a, ha, by simp [hid, hh]⟩

/-- When a previous-response item marks a display block as continued by
the secondary signal: `tool_use` blocks with a truthy id match by id
against tool-use response items, every other block matches by hash
against non-tool-use response items. -/
def respEcho (item : Json) : RBlock → Prop
  | .sys it => isResponseIdItem item = false ∧
      simpleHash (getHashableContent item) = simpleHash (jsonStringify it)
  | .tool it => isResponseIdItem item = false ∧
      simpleHash (getHashableContent item) = simpleHash (jsonStringify it)
  | .msgItem it =>
      (getTypeStr it = "tool_use" ∧ jsTruthyOpt (it.get? "id") = true ∧
        isResponseIdItem item = true ∧
        (item.get? "id").getD Json.null = (it.get? "id").getD Json.null) ∨
      (¬ (getTypeStr it = "tool_use" ∧ jsTruthyOpt (it.get? "id") = true) ∧
        isResponseIdItem item = false ∧
        simpleHash (getHashableContent item) = simpleHash (getHashableContent it))
  | .msgScalar c => isResponseIdItem item = false ∧
      simpleHash (getHashableContent item) = simpleHash (getHashableContent c)

theorem list_contains_iff_mem {α : Type} [BEq α] [LawfulBEq α] (l : List α) (a : α) :
    l.contains a = true ↔ a ∈ l := by
  simp

theorem rblockSecondary_iff (allTraces : List Trace) (traceIdx : Nat) (b : RBlock) :
    rblockSecondary (previousResponseHashes allTraces traceIdx)
      (previousResponseToolUseIds allTraces traceIdx) b = true
    ↔ ∃ item, item ∈ previousResponseItems allTraces traceIdx ∧ respEcho item b := by
  cases b with
  | sys it =>
    simp only [rblockSecondary]
    rw [list_contains_iff_mem, mem_prevHashes_iff]
    exact Iff.rfl
  | tool it =>
    simp only [rblockSecondary]
    rw [list_contains_iff_mem, mem_prevHashes_iff]
    exact Iff.rfl
  | msgScalar c =>
    simp only [rblockSecondary]
    rw [list_contains_iff_mem, mem_prevHashes_iff]
    exact Iff.rfl
  | msgItem it =>
    by_cases hc : getTypeStr it = "tool_use" ∧ jsTruthyOpt (it.get? "id") = true
    · simp only [rblockSecondary, if_pos hc]
      rw [list_contains_iff_mem, mem_prevIds_iff]
      constructor
      · rintro ⟨a, ha, hid, hh⟩
        exact ⟨a, ha, Or.inl ⟨hc.1, hc.2, hid, hh⟩⟩
      · rintro ⟨a, ha, hecho⟩
        rcases hecho with ⟨_, _, hid, hh⟩ | ⟨hnc, _, _⟩
        · exact ⟨a, ha, hid, hh⟩
        · exact absurd hc hnc
    · simp only [rblockSecondary, if_neg hc]
      rw [list_contains_iff_mem, mem_prevHashes_iff]
      constructor
      · rintro ⟨a, ha, hid, hh⟩
        exact ⟨a, ha, Or.inr ⟨hc, hid, hh⟩⟩
      · rintro ⟨a, ha, hecho⟩
        rcases hecho with ⟨h1, h2, _, _⟩ | ⟨_, hid, hh⟩
        · exact absurd ⟨h1, h2⟩ hc
        · exact ⟨a, ha, hid, hh⟩

/-- C4 (amended): a display block of a request trace is marked by the
secondary signal exactly when some content item of SOME preceding
response trace echoes it — by id for `tool_use` blocks with a truthy id,
by content hash for every other block (including `tool_result` blocks,
which are matched by hash, not by their referenced id). The marking does
not depend on the prefix-match count. -/
theorem renderBlocks_secondary_signal
    (allTraces : List Trace) (traceLevels : List String) (currentLevel : String)
    (traceIdx : Nat) (trace : Trace)
    (htr : allTraces.get? traceIdx = some trace)
    (hreq : trace.type = "request") :
    (renderBlockInfos allTraces traceLevels currentLevel traceIdx).length
        = (requestBlockItems trace).length ∧
    ∀ i it, (requestBlockItems trace).get? i = some it →
      (((renderBlockInfos allTraces traceLevels currentLevel traceIdx).get? i).map
          BlockInfo.fromResponse = some true
        ↔ ∃ item, item ∈ previousResponseItems allTraces traceIdx ∧ respEcho item it) := by
  rw [renderBlockInfos_eq allTraces traceLevels currentLevel traceIdx trace htr hreq]
  constructor
  · rw [List.length_map, List.enum_length]
  · intro i it hit
    rw [enum_map_get?, hit]
    show some _ = some true ↔ _
    rw [Option.some_inj]
    exact rblockSecondary_iff allTraces traceIdx it

instance (item : Json) (b : RBlock) : Decidable (respEcho item b) := by
  cases b <;> unfold respEcho <;> infer_instance

/-- A plain request used as filler in the secondary-signal scenarios. -/
def c4ReqM : Trace :=
  ⟨1, "request", jobj [("messages", jarr [jobj [("role", .str "user"),
    ("content", .str "hi")]])]⟩

/-- The immediately preceding response of scenario A: its only item is
the text `OTHER`, which does not match the echoed block. -/
def c4RespOther : Trace :=
  ⟨2, "response", jobj [("content", jarr [jobj [("type", .str "text"),
    ("text", .str "OTHER")]])]⟩

/-- The current request of scenario A: one text item `ECHO`, echoing a
response older than the immediately preceding one. -/
def c4CurEcho : Trace :=
  ⟨3, "request", jobj [("messages", jarr [jobj [("role", .str "user"),
    ("content", jarr [jobj [("type", .str "text"), ("text", .str "ECHO")]])]])]⟩

/-- Scenario A: the echoed text sits in the first response, two traces
before the current request. -/
def c4TracesA : List Trace := [c2RespTrace, c4ReqM, c4RespOther, c4CurEcho]

/-- Levels for scenario A. -/
def c4LevelsA : List String := ["main", "main", "main", "main"]

/-- The immediately preceding response of scenario B: one `tool_use`
item with id `toolu_T1`. -/
def c4RespTool : Trace :=
  ⟨1, "response", jobj [("content", jarr [jobj [("type", .str "tool_use"),
    ("id", .str "toolu_T1"), ("name", .str "Read")]])]⟩

/-- The current request of scenario B: one `tool_result` item
referencing `toolu_T1`. -/
def c4CurToolResult : Trace :=
  ⟨2, "request", jobj [("messages", jarr [jobj [("role", .str "user"),
    ("content", jarr [jobj [("type", .str "tool_result"),
      ("tool_use_id", .str "toolu_T1"), ("content", .str "ok")]])]])]⟩

/-- Scenario B traces. -/
def c4TracesB : List Trace := [c4ReqM, c4RespTool, c4CurToolResult]

/-- Levels for scenario B. -/
def c4LevelsB : List String := ["main", "main", "main"]

/-- Counterexample to C4 as stated. Scenario A: the current block's hash
appears only in a response that is NOT the immediately preceding one,
yet it is marked by the secondary signal. Scenario B: a `tool_result`
block references a tool call of the immediately preceding response, yet
it is NOT marked — the source matches `tool_result` blocks by hash, not
by referenced id. -/
theorem renderBlocks_secondary_c4_counterexample :
    (((renderBlockInfos c4TracesA c4LevelsA "main" 3).get? 0).map BlockInfo.fromResponse
        = some true ∧
      responseContentItems c4RespOther
        = [jobj [("type", .str "text"), ("text", .str "OTHER")]] ∧
      simpleHash (getHashableContent (jobj [("type", .str "text"), ("text", .str "OTHER")]))
        ≠ simpleHash (getHashableContent (jobj [("type", .str "text"),
            ("text", .str "ECHO")]))) ∧
    (((renderBlockInfos c4TracesB c4LevelsB "main" 2).get? 0).map BlockInfo.fromResponse
        = some false ∧
      responseContentItems c4RespTool
        = [jobj [("type", .str "tool_use"), ("id", .str "toolu_T1"),
            ("name", .str "Read")]] ∧
      (requestBlockItems c4CurToolResult).get? 0
        = some (RBlock.msgItem (jobj [("type", .str "tool_result"),
            ("tool_use_id", .str "toolu_T1"), ("content", .str "ok")]))) := by
  refine ⟨⟨?_, ?_, ?_⟩, ⟨?_, ?_, ?_⟩⟩ <;> decide

/-- Witness for C4 (amended) on scenario A: the echo of the first
response marks the current request's block. -/
theorem renderBlocks_secondary_signal_witness :
    ((renderBlockInfos c4TracesA c4LevelsA "main" 3).get? 0).map BlockInfo.fromResponse
      = some true :=
  have h := renderBlocks_secondary_signal c4TracesA c4LevelsA "main" 3 c4CurEcho
    (by decide) (by decide)
  (h.2 0 (RBlock.msgItem (jobj [("type", .str "text"), ("text", .str "ECHO")]))
      (by decide)).mpr
    ⟨jobj [("type", .str "text"), ("text", .str "ECHO")], by decide, by decide⟩

/-- Whether a trace file's name classifies it as a request (C9 rule). -/
def isRequestFile (f : ExampleFile) : Bool := strContains (strToLower f.name) "request"

/-- C6: loading a directory with N request trace files and M response
trace files yields N + M traces sorted ascending by timestamp, and
enumeration order does not matter — a permuted listing loads to a
permutation of the same traces (hence the same counts and the same
sorted order up to ties). -/
theorem parseExample_roundtrip (p : String → Option Json)
    (files files' : List ExampleFile) (hperm : files.Perm files') :
    (parseExampleTraces p files).length
        = ((files.filter isTraceFile).filter isRequestFile).length
          + ((files.filter isTraceFile).filter (fun f => !isRequestFile f)).length ∧
    List.Pairwise traceLE (parseExampleTraces p files) ∧
    (parseExampleTraces p files').Perm (parseExampleTraces p files) := by
  refine ⟨?_, ?_, ?_⟩
  · unfold parseExampleTraces
    rw [(List.perm_insertionSort traceLE _).length_eq, List.length_map]
    rw [← (List.filter_append_perm isRequestFile (files.filter isTraceFile)).length_eq,
      List.length_append]
  · exact List.sorted_insertionSort traceLE _
  · unfold parseExampleTraces
    refine (List.perm_insertionSort traceLE _).trans ?_
    refine List.Perm.trans ?_ (List.perm_insertionSort traceLE _).symm
    exact (hperm.symm.filter isTraceFile).map _

/-- Two trace files listed out of timestamp order. -/
def exFiles : List ExampleFile :=
  [⟨"[20] Response - api.anthropic.com_v1_messages.txt", "x", false⟩,
   ⟨"[10] Request - api.anthropic.com_v1_messages.txt", "y", false⟩]

/-- The same directory enumerated in the other order. -/
def exFiles' : List ExampleFile :=
  [⟨"[10] Request - api.anthropic.com_v1_messages.txt", "y", false⟩,
   ⟨"[20] Response - api.anthropic.com_v1_messages.txt", "x", false⟩]

/-- Witness for C6 on a two-file example enumerated both ways. -/
theorem parseExample_roundtrip_witness :
    (parseExampleTraces (fun _ => none) exFiles).length = 1 + 1 ∧
    List.Pairwise traceLE (parseExampleTraces (fun _ => none) exFiles) ∧
    (parseExampleTraces (fun _ => none) exFiles').Perm
      (parseExampleTraces (fun _ => none) exFiles) :=
  have h := parseExample_roundtrip (fun _ => none) exFiles exFiles' (by decide)
  ⟨by rw [h.1]; decide, h.2.1, h.2.2⟩

/-- C7: a trace file whose body fails to parse is retained with its
payload replaced by `{ raw: <text> }`, and loading of every other file
continues unaffected — the loaded list is a permutation (the timestamp
sort) of the other files' parses with the degraded trace among them, one
trace per trace file. -/
theorem parseLLMFile_malformed_isolated (p : String → Option Json)
    (pre post : List ExampleFile) (bad : ExampleFile)
    (htrace : isTraceFile bad = true)
    (hjson : strEndsWith bad.name ".json" = true)
    (hfail : p bad.content = none) :
    (parseLLMFile p bad.name bad.content).data = jobj [("raw", .str bad.content)] ∧
    (parseExampleTraces p (pre ++ bad :: post)).Perm
      ((pre.filter isTraceFile).map (fun f => parseLLMFile p f.name f.content)
        ++ parseLLMFile p bad.name bad.content
          :: (post.filter isTraceFile).map (fun f => parseLLMFile p f.name f.content)) ∧
    (parseExampleTraces p (pre ++ bad :: post)).length
      = ((pre ++ bad :: post).filter isTraceFile).length := by
  refine ⟨?_, ?_, ?_⟩
  · unfold parseLLMFile
    rw [hjson, hfail]
    rfl
  · unfold parseExampleTraces
    refine (List.perm_insertionSort traceLE _).trans ?_
    rw [List.filter_append, List.filter_cons_of_pos htrace, List.map_append, List.map_cons]
  · unfold parseExampleTraces
    rw [(List.perm_insertionSort traceLE _).length_eq, List.length_map]

/-- A malformed `.json` trace file. -/
def badFile : ExampleFile :=
  ⟨"[15] Request - api.anthropic.com_v1_messages.json", "not json", false⟩

/-- A well-formed neighbour of the malformed file. -/
def goodFile : ExampleFile :=
  ⟨"[20] Response - api.anthropic.com_v1_messages.txt", "x", false⟩

/-- Witness for C7: loading a directory with `badFile` between two good
files keeps one trace per file, with the malformed one degraded to its
raw text. -/
theorem parseLLMFile_malformed_isolated_witness :
    (parseLLMFile (fun _ => none) badFile.name badFile.content).data
        = jobj [("raw", .str badFile.content)] ∧
    (parseExampleTraces (fun _ => none) ([goodFile] ++ badFile :: [goodFile])).length
      = (([goodFile] ++ badFile :: [goodFile]).filter isTraceFile).length :=
  have h := parseLLMFile_malformed_isolated (fun _ => none)
    [goodFile] [goodFile] badFile (by decide) (by decide) rfl
  ⟨h.1, h.2.2⟩
